import Mathlib

/-!
Request signing in `src/api/sign-oci.js`.

A shallow embedding of the `handler` function of `src/api/sign-oci.js` up to the
point where it calls `fetch`, together with the properties of the signing string,
the signed header list, the header mapping and the `Authorization` value.

Conventions of the embedding.

* A parsed JSON value is a `JVal`; the JavaScript value `undefined` (a missing
  property, an unset environment variable) is `none` of an `Option`.
* A thrown exception is `none` of an `Option`; the `catch` block of `handler` turns
  every exception into the HTTP 500 answer `Outcome.serverError`.
* The current time (`new Date().toUTCString()`) and the environment
  (`process.env`) are inputs.
* The library functions that the source imports (`String.prototype.toLowerCase`,
  `String.prototype.toUpperCase`, SHA-256, PEM parsing, RSA signing) are the fields
  of a `Runtime`.
-/

namespace SignOci

/-! ## JSON values -/

/-- A value produced by `JSON.parse`. A number is identified by its canonical
ECMAScript rendering (`Number::toString`, e.g. `"0"`, `"-1.5"`, `"1e+21"`), which is
what a template literal prints; `-0` renders as `"0"`, and a literal beyond the
range of a double parses to an infinity, rendered `"Infinity"` or `"-Infinity"`.
The fields of an object are listed in property enumeration order, with distinct
keys. -/
inductive JVal where
  | null
  | bool (b : Bool)
  | num (repr : String)
  | str (s : String)
  | arr (items : List JVal)
  | obj (fields : List (String × JVal))

/-- One lower-case hexadecimal digit. -/
def hexDigit (n : Nat) : Char :=
  if n < 10 then Char.ofNat (48 + n) else Char.ofNat (87 + n)

namespace JVal

/-- ECMAScript `ToBoolean` on a JSON value: `null`, `false`, zero and the empty
string are falsy, everything else (every array and object included) is truthy. -/
def truthy : JVal → Bool
  | null => false
  | bool b => b
  | num r => r != "0"
  | str s => s != ""
  | arr _ => true
  | obj _ => true

/-- Whether an object has an own property of the given name. -/
def hasOwn (fields : List (String × JVal)) (k : String) : Bool :=
  fields.any (fun kv => kv.1 == k)

mutual
/-- ECMAScript `ToString`, as applied by a template literal. `none` is a thrown
`TypeError`: an object whose own `toString` property shadows
`Object.prototype.toString` with a value that is not callable cannot be converted.
An array is converted by `Array.prototype.join` with separator `,`. -/
def toStr : JVal → Option String
  | null => some "null"
  | bool b => some (if b then "true" else "false")
  | num r => some r
  | str s => some s
  | arr xs =>
    match joinItems xs with
    | some parts => some (",".intercalate parts)
    | none => none
  | obj kvs => if hasOwn kvs "toString" then none else some "[object Object]"
/-- The element strings of `Array.prototype.join`: `null` contributes the empty
string, every other element its `ToString`. -/
def joinItems : List JVal → Option (List String)
  | [] => some []
  | null :: xs =>
    match joinItems xs with
    | some rest => some ("" :: rest)
    | none => none
  | x :: xs =>
    match toStr x, joinItems xs with
    | some a, some rest => some (a :: rest)
    | _, _ => none
end

/-- The escape of one character inside a JSON string literal (`QuoteJSONString`):
the quotation mark, the reverse solidus and the control characters below U+0020
are escaped, every other character is copied. -/
def escapeChar (c : Char) : List Char :=
  if c = Char.ofNat 34 then [Char.ofNat 92, Char.ofNat 34]
  else if c = Char.ofNat 92 then [Char.ofNat 92, Char.ofNat 92]
  else if c = Char.ofNat 8 then [Char.ofNat 92, 'b']
  else if c = Char.ofNat 12 then [Char.ofNat 92, 'f']
  else if c = Char.ofNat 10 then [Char.ofNat 92, 'n']
  else if c = Char.ofNat 13 then [Char.ofNat 92, 'r']
  else if c = Char.ofNat 9 then [Char.ofNat 92, 't']
  else if c.toNat < 32 then
    [Char.ofNat 92, 'u', '0', '0', hexDigit (c.toNat / 16), hexDigit (c.toNat % 16)]
  else [c]

/-- The JSON string literal of a string (`QuoteJSONString`). -/
def quote (s : String) : String :=
  ⟨[Char.ofNat 34] ++ s.data.flatMap escapeChar ++ [Char.ofNat 34]⟩

mutual
/-- The result of `JSON.stringify` on a parsed JSON value (no replacer, no
indentation). A finite number prints as its rendering, an infinity as `null`. -/
def stringify : JVal → String
  | null => "null"
  | bool b => if b then "true" else "false"
  | num r => if r = "Infinity" ∨ r = "-Infinity" then "null" else r
  | str s => quote s
  | arr xs => "[" ++ ",".intercalate (stringifyItems xs) ++ "]"
  | obj kvs => "\x7b" ++ ",".intercalate (stringifyFields kvs) ++ "\x7d"
/-- The serialised elements of an array. -/
def stringifyItems : List JVal → List String
  | [] => []
  | x :: xs => stringify x :: stringifyItems xs
/-- The serialised `key:value` members of an object. -/
def stringifyFields : List (String × JVal) → List String
  | [] => []
  | (k, v) :: kvs => (quote k ++ ":" ++ stringify v) :: stringifyFields kvs
end

end JVal

/-- ECMAScript `ToBoolean` on a value that may be `undefined`. -/
def truthyU : Option JVal → Bool
  | some v => v.truthy
  | none => false

/-- Property read `o[k]` on the value of `req.body || \x7b\x7d`: only an object has
any of the properties the handler reads; a missing property, and every property
of a primitive or an array, is `undefined`. -/
def getProp (o : Option JVal) (k : String) : Option JVal :=
  match o with
  | some (JVal.obj fields) => fields.lookup k
  | _ => none

/-! ## Bytes, hexadecimal and base64 -/

/-- The UTF-8 encoding of a string. -/
def utf8 (s : String) : List UInt8 :=
  s.data.flatMap String.utf8EncodeChar

/-- The text of `digest('hex')`: two lower-case hexadecimal digits per byte. -/
def hexEncode (bs : List UInt8) : String :=
  ⟨bs.flatMap (fun b => [hexDigit (b.toNat / 16), hexDigit (b.toNat % 16)])⟩

/-- The value of a hexadecimal digit, in either case. -/
def hexVal (c : Char) : Option Nat :=
  if 48 ≤ c.toNat ∧ c.toNat ≤ 57 then some (c.toNat - 48)
  else if 97 ≤ c.toNat ∧ c.toNat ≤ 102 then some (c.toNat - 87)
  else if 65 ≤ c.toNat ∧ c.toNat ≤ 70 then some (c.toNat - 55)
  else none

/-- The bytes of `Buffer.from(text, 'hex')` on a list of characters: pairs of
hexadecimal digits are decoded until the first pair that is not one. -/
def hexDecodeChars : List Char → List UInt8
  | a :: b :: rest =>
    match hexVal a, hexVal b with
    | some h, some l => UInt8.ofNat (16 * h + l) :: hexDecodeChars rest
    | _, _ => []
  | _ => []

/-- The bytes of `Buffer.from(text, 'hex')`. -/
def hexDecode (s : String) : List UInt8 :=
  hexDecodeChars s.data

/-- The base64 alphabet. -/
def base64Alphabet : List Char :=
  "ABCDEFGHIJKLMNOPQRSTUVWXYZabcdefghijklmnopqrstuvwxyz0123456789+/".data

/-- The base64 digit of a six-bit value. -/
def base64Digit (n : Nat) : Char :=
  base64Alphabet.getD (n % 64) 'A'

/-- Standard base64 with `=` padding, on a list of bytes. -/
def base64Chars : List UInt8 → List Char
  | a :: b :: c :: rest =>
    let n := a.toNat * 65536 + b.toNat * 256 + c.toNat
    base64Digit (n / 262144) :: base64Digit (n / 4096) :: base64Digit (n / 64) ::
      base64Digit n :: base64Chars rest
  | [a, b] =>
    let n := a.toNat * 65536 + b.toNat * 256
    [base64Digit (n / 262144), base64Digit (n / 4096), base64Digit (n / 64), '=']
  | [a] =>
    let n := a.toNat * 65536
    [base64Digit (n / 262144), base64Digit (n / 4096), '=', '=']
  | [] => []

/-- The text of `Buffer.toString('base64')` and of `forge.util.encode64`. -/
def base64 (bs : List UInt8) : String :=
  ⟨base64Chars bs⟩

/-! ## The private key text -/

/-- The result of `.replace(/\\n/g, '\n')`: every occurrence of a reverse solidus
followed by the letter `n` becomes one line feed, scanning from the left. -/
def unescapeNewlines : List Char → List Char
  | a :: b :: rest =>
    if a = Char.ofNat 92 ∧ b = 'n' then Char.ofNat 10 :: unescapeNewlines rest
    else a :: unescapeNewlines (b :: rest)
  | rest => rest

/-- The characters removed by `String.prototype.trim`: ECMAScript white space and
line terminators. -/
def isJsSpace (c : Char) : Bool :=
  let n := c.toNat
  n == 9 || n == 10 || n == 11 || n == 12 || n == 13 || n == 32 || n == 160 ||
  n == 0x1680 || (0x2000 ≤ n && n ≤ 0x200A) || n == 0x2028 || n == 0x2029 ||
  n == 0x202F || n == 0x205F || n == 0x3000 || n == 0xFEFF

/-- The result of `String.prototype.trim` on a list of characters. -/
def jsTrim (cs : List Char) : List Char :=
  ((cs.dropWhile isJsSpace).reverse.dropWhile isJsSpace).reverse

/-- The text handed to the PEM parser:
`process.env.OCI_PRIVATE_KEY.replace(/\\n/g, '\n').trim()`. -/
def normalizePem (raw : String) : String :=
  ⟨jsTrim (unescapeNewlines raw.data)⟩

/-! ## The environment of the handler -/

/-- The library functions the handler calls. `toLowerCase` and `toUpperCase` are
the methods of `String.prototype`; on text made of ASCII characters they change
the case of the letters `a` to `z` only, which is all that is assumed of them.
`sha256` is the hash behind `crypto.createHash('sha256')`, `privateKeyFromPem` is
`forge.pki.privateKeyFromPem` (`none` when it throws), and `sign key message` is
the RSASSA-PKCS1-v1_5 signature with SHA-256 that
`privateKey.sign(md, 'RSASSA-PKCS1-V1_5')` returns for the digest object `md` that
was fed the bytes `message`. -/
structure Runtime (Key : Type) where
  toLowerCase : String → String
  toUpperCase : String → String
  sha256 : List UInt8 → List UInt8
  privateKeyFromPem : String → Option Key
  sign : Key → List UInt8 → List UInt8
  toLowerCase_ascii : ∀ s : String, (∀ c ∈ s.data, c.toNat < 128) →
    toLowerCase s = ⟨s.data.map Char.toLower⟩
  toUpperCase_ascii : ∀ s : String, (∀ c ∈ s.data, c.toNat < 128) →
    toUpperCase s = ⟨s.data.map Char.toUpper⟩

/-- The four variables of `process.env` that the handler reads; an unset variable
is `undefined`. -/
structure Env where
  OCI_TENANCY_OCID : Option String
  OCI_USER_OCID : Option String
  OCI_FINGERPRINT : Option String
  OCI_PRIVATE_KEY : Option String

/-- The text a template literal prints for an environment variable: an unset
variable prints as `undefined`. -/
def envText : Option String → String
  | some v => v
  | none => "undefined"

/-- The constants bound by the destructuring assignment of lines 6 to 13. A
default value replaces `undefined` only, so `service`, `domain` and `region` are
never `undefined`. -/
structure Params where
  method : Option JVal
  path : Option JVal
  body : Option JVal
  service : JVal
  domain : JVal
  region : JVal

/-- The destructuring of `req.body || \x7b\x7d` (lines 6 to 13). -/
def destructure (reqBody : Option JVal) : Params where
  method := getProp reqBody "method"
  path := getProp reqBody "path"
  body := getProp reqBody "body"
  service := (getProp reqBody "service").getD (JVal.str "objectstorage")
  domain := (getProp reqBody "host").getD (JVal.str "oraclecloud.com")
  region := (getProp reqBody "region").getD (JVal.str "ap-singapore-1")

/-! ## The handler -/

/-- Assignment `o[k] = v` on an object with string keys, listed in insertion
order: an existing key keeps its place, a new key goes last. -/
def setProp (o : List (String × String)) (k v : String) : List (String × String) :=
  if o.any (fun kv => kv.1 == k) then o.map (fun kv => if kv.1 == k then (k, v) else kv)
  else o ++ [(k, v)]

/-- The verbs listed on line 41. -/
def mutatingVerbs : List String := ["POST", "PUT", "PATCH"]

/-- The condition of line 41:
`body && ['POST', 'PUT', 'PATCH'].includes(method.toUpperCase())`. -/
def digestTriggered {Key : Type} (rt : Runtime Key) (method : String) (body : Option JVal) : Bool :=
  truthyU body && mutatingVerbs.contains (rt.toUpperCase method)

/-- The value of `sha256base64` (lines 46 and 47): the hexadecimal digest of the
UTF-8 bytes of the body text, read back as bytes and printed in base64. -/
def contentDigest {Key : Type} (rt : Runtime Key) (bodyString : String) : String :=
  base64 (hexDecode (hexEncode (rt.sha256 (utf8 bodyString))))

/-- The mutable locals of the handler after line 58. -/
structure Draft where
  headersToSign : List String
  signingStringArray : List String
  headers : List (String × String)
  contentLength : Nat
  bodyString : String

/-- Lines 25 to 58: the mandatory signing lines and headers, then the body
section when the condition of line 41 holds. -/
def draft {Key : Type} (rt : Runtime Key) (date method pathStr fullHost : String)
    (body : Option JVal) : Draft :=
  let headersToSign := ["(request-target)", "date", "host"]
  let signingStringArray :=
    ["(request-target): " ++ rt.toLowerCase method ++ " " ++ pathStr,
     "date: " ++ date,
     "host: " ++ fullHost]
  let headers := [("Date", date), ("Host", fullHost)]
  let base : Draft := ⟨headersToSign, signingStringArray, headers, 0, ""⟩
  match body with
  | some b =>
    if digestTriggered rt method (some b) then
      let bodyString := b.stringify
      let contentLength := bodyString.utf8ByteSize
      let contentType := "application/json"
      let sha256base64 := contentDigest rt bodyString
      let headers := setProp headers "Content-Type" contentType
      let headers := setProp headers "Content-Length" (toString contentLength)
      let headers := setProp headers "x-content-sha256" sha256base64
      let signingStringArray := signingStringArray ++ ["x-content-sha256: " ++ sha256base64]
      let signingStringArray := signingStringArray ++ ["content-type: " ++ contentType]
      let signingStringArray :=
        signingStringArray ++ ["content-length: " ++ toString contentLength]
      let headersToSign := headersToSign ++ ["x-content-sha256", "content-type", "content-length"]
      ⟨headersToSign, signingStringArray, headers, contentLength, bodyString⟩
    else base
  | none => base

/-- What the handler has computed when it calls `fetch` (line 72): the locals of
lines 19 to 69 and the arguments of the call. -/
structure Signed where
  keyId : String
  privateKeyPem : String
  fullHost : String
  headersToSign : List String
  signingStringArray : List String
  signingString : String
  signature : String
  headers : List (String × String)
  url : String
  method : String
  body : Option String

/-- The text of the `Authorization` header (line 67). -/
def authorization (keyId : String) (headersToSign : List String) (signature : String) : String :=
  "Signature version=\"1\",keyId=\"" ++ keyId ++ "\",algorithm=\"rsa-sha256\",headers=\"" ++
    " ".intercalate headersToSign ++ "\",signature=\"" ++ signature ++ "\""

/-- Lines 60 to 76, once every value that the template literals print has been
converted and the key has been parsed: the signing string, the signature, the
`Authorization` header and the arguments of `fetch`. -/
def signWith {Key : Type} (rt : Runtime Key) (keyId privateKeyPem : String) (privateKey : Key)
    (date method pathStr fullHost : String) (body : Option JVal) : Signed :=
  let d := draft rt date method pathStr fullHost body
  let signingString := "\n".intercalate d.signingStringArray
  let signature := base64 (rt.sign privateKey (utf8 signingString))
  let headers := setProp d.headers "Authorization" (authorization keyId d.headersToSign signature)
  { keyId := keyId
    privateKeyPem := privateKeyPem
    fullHost := fullHost
    headersToSign := d.headersToSign
    signingStringArray := d.signingStringArray
    signingString := signingString
    signature := signature
    headers := headers
    url := "https://" ++ fullHost ++ pathStr
    method := method
    body := if d.bodyString = "" then none else some d.bodyString }

/-- Lines 19 to 76 of the handler, entered after the check of line 15. `none` is a
thrown exception: an unset `OCI_PRIVATE_KEY` (`undefined.replace`), a `method`
that is not a string (`method.toLowerCase` is not a function), a value that a
template literal cannot convert, or a key text the PEM parser rejects. -/
def signAndCall {Key : Type} (rt : Runtime Key) (env : Env) (date : String) (p : Params) :
    Option Signed :=
  let keyId := envText env.OCI_TENANCY_OCID ++ "/" ++ envText env.OCI_USER_OCID ++ "/" ++
    envText env.OCI_FINGERPRINT
  match env.OCI_PRIVATE_KEY with
  | none => none
  | some raw =>
    let privateKeyPem := normalizePem raw
    match p.service.toStr, p.region.toStr, p.domain.toStr with
    | some service, some region, some domain =>
      let fullHost := service ++ "." ++ region ++ "." ++ domain
      match p.method, p.path with
      | some (JVal.str method), some path =>
        match path.toStr with
        | some pathStr =>
          match rt.privateKeyFromPem privateKeyPem with
          | some privateKey =>
            some (signWith rt keyId privateKeyPem privateKey date method pathStr fullHost p.body)
          | none => none
        | none => none
      | _, _ => none
    | _, _, _ => none

/-- How the handler ends, as far as the signing is concerned: the HTTP 400 answer
of line 16, the HTTP 500 answer of the `catch` block, or the call of `fetch` on
line 72. -/
inductive Outcome where
  | badRequest (error : String)
  | serverError
  | sent (call : Signed)

/-- The handler of `src/api/sign-oci.js` up to the call of `fetch`, on the parsed
request body (`none` when `req.body` is `undefined`), at the time whose
`toUTCString()` is `date`. -/
def handler {Key : Type} (rt : Runtime Key) (env : Env) (date : String)
    (reqBody : Option JVal) : Outcome :=
  let p := destructure reqBody
  if !truthyU p.method || !truthyU p.path then
    Outcome.badRequest "Missing required fields: method and path"
  else
    match signAndCall rt env date p with
    | some call => Outcome.sent call
    | none => Outcome.serverError

/-! ## A runtime for examples -/

/-- A runtime with the ASCII case mappings and stand-ins for the cryptographic
functions, used only to evaluate the handler on examples: the hash is the
identity, every key text is accepted as its own key, and the signature of a
message is the key bytes followed by the message. -/
def exampleRuntime : Runtime String where
  toLowerCase := fun s => ⟨s.data.map Char.toLower⟩
  toUpperCase := fun s => ⟨s.data.map Char.toUpper⟩
  sha256 := fun bs => bs
  privateKeyFromPem := fun pem => some pem
  sign := fun key message => utf8 key ++ message
  toLowerCase_ascii := fun _ _ => rfl
  toUpperCase_ascii := fun _ _ => rfl

/-- An environment in which all four variables are set. -/
def exampleEnv : Env where
  OCI_TENANCY_OCID := some "tenancy"
  OCI_USER_OCID := some "user"
  OCI_FINGERPRINT := some "aa:bb"
  OCI_PRIVATE_KEY := some "KEY"

/-- The timestamp of the examples. -/
def exampleDate : String := "Thu, 01 Jan 2026 00:00:00 GMT"

/-- A request without a body. -/
def exampleGet : Option JVal :=
  some (JVal.obj [("method", JVal.str "GET"), ("path", JVal.str "/n/ns/b/bucket")])

/-- A request with a body whose text has more UTF-8 bytes than characters. -/
def examplePost : Option JVal :=
  some (JVal.obj
    [("method", JVal.str "POST"), ("path", JVal.str "/20220125/actions/analyzeDocument"),
     ("service", JVal.str "vision"), ("region", JVal.str "eu-frankfurt-1"),
     ("body", JVal.obj [("name", JVal.str "café")])])

/-- A request with a body and the method PUT. -/
def examplePut : Option JVal :=
  some (JVal.obj
    [("method", JVal.str "PUT"), ("path", JVal.str "/n/ns/b/bucket/o/report.json"),
     ("host", JVal.str "example.org"), ("body", JVal.arr [JVal.num "1", JVal.num "2"])])

/-- A GET request that carries a body. -/
def exampleGetWithBody : Option JVal :=
  some (JVal.obj
    [("method", JVal.str "GET"), ("path", JVal.str "/n/ns/b/bucket"),
     ("body", JVal.obj [("prefix", JVal.str "a")])])

/-- A request with a body whose method is spelled in lower case. -/
def exampleLowerPost : Option JVal :=
  some (JVal.obj
    [("method", JVal.str "post"), ("path", JVal.str "/20220125/actions/analyzeDocument"),
     ("body", JVal.obj [("compartmentId", JVal.str "c")])])

/-- A PATCH request with a body, for another service and region. -/
def examplePatch : Option JVal :=
  some (JVal.obj
    [("method", JVal.str "PATCH"), ("path", JVal.str "/20160918/things/7"),
     ("service", JVal.str "iaas"), ("region", JVal.str "us-ashburn-1"),
     ("body", JVal.obj [("displayName", JVal.str "x")])])

/-- A DELETE request. -/
def exampleDelete : Option JVal :=
  some (JVal.obj [("method", JVal.str "DELETE"), ("path", JVal.str "/n/ns/b/bucket/o/old.txt")])

/-- A request with a body whose method is `patch` in lower case. -/
def exampleLowerPatch : Option JVal :=
  some (JVal.obj
    [("method", JVal.str "patch"), ("path", JVal.str "/20160918/things/7"),
     ("body", JVal.str "x")])

/-- A request without a `method`. -/
def exampleNoMethod : Option JVal :=
  some (JVal.obj [("path", JVal.str "/n/ns/b/bucket")])

/-- An environment in which `OCI_PRIVATE_KEY` is not set. -/
def exampleEnvNoKey : Env where
  OCI_TENANCY_OCID := some "tenancy"
  OCI_USER_OCID := some "user"
  OCI_FINGERPRINT := some "aa:bb"
  OCI_PRIVATE_KEY := none

/-- An environment in which `OCI_TENANCY_OCID` is not set. -/
def exampleEnvNoTenancy : Env where
  OCI_TENANCY_OCID := none
  OCI_USER_OCID := some "user"
  OCI_FINGERPRINT := some "aa:bb"
  OCI_PRIVATE_KEY := some "KEY"

/-- The request `exampleGet` with one byte of the path changed. -/
def exampleGetOther : Option JVal :=
  some (JVal.obj [("method", JVal.str "GET"), ("path", JVal.str "/n/ns/b/bucke7")])

/-- The request `exampleGet` with one letter of the method in the other case. -/
def exampleGetMixedCase : Option JVal :=
  some (JVal.obj [("method", JVal.str "GeT"), ("path", JVal.str "/n/ns/b/bucket")])

/-- A request without a body whose path is the one-character text `5`. -/
def examplePathText : Option JVal :=
  some (JVal.obj [("method", JVal.str "GET"), ("path", JVal.str "5")])

/-- A request without a body whose path is the number 5, which a template literal
prints as the text `5`. -/
def examplePathNumber : Option JVal :=
  some (JVal.obj [("method", JVal.str "GET"), ("path", JVal.num "5")])

/-! ## Numbers of the OCR response -/

/-- The exact value of a finite double: every finite double is a fraction of two
integers (of an integer and a power of two). -/
structure Fraction where
  num : Int
  den : Nat
  den_pos : 0 < den

namespace Fraction

/-- The fraction as a rational number. -/
def toRat (a : Fraction) : ℚ := (a.num : ℚ) / (a.den : ℚ)

/-- The number zero, the default of `|| 0`. -/
def zero : Fraction := ⟨0, 1, Nat.one_pos⟩

/-- The comparison `a ≤ b`, by cross multiplication. -/
def le (a b : Fraction) : Prop := a.num * b.den ≤ b.num * a.den

instance (a b : Fraction) : Decidable (le a b) := by
  unfold le
  infer_instance

end Fraction

/-- The integer `n` of `Number.prototype.toFixed(2)` for a magnitude `num / den`:
the integer for which `n / 100` is closest to the magnitude, the larger one when
two are equally close. -/
def hundredths (num den : Nat) : Nat := (200 * num + den) / (2 * den)

/-- The decimal digit of a number below ten. -/
def digitChar (n : Nat) : Char := Char.ofNat (48 + n)

/-- The text of `toFixed(2)` for the integer `n` of hundredths: the decimal digits
of `n / 100`, a point, and the two digits of `n % 100`. -/
def fixed2 (n : Nat) : String :=
  Nat.repr (n / 100) ++ "." ++ ⟨[digitChar (n % 100 / 10), digitChar (n % 10)]⟩

/-- The result of `y.toFixed(2)` on a number of magnitude below `10 ^ 21`: a minus
sign for a negative number, then the text of the rounded magnitude. -/
def toFixed2 (y : Fraction) : String :=
  (if y.num < 0 then "-" else "") ++ fixed2 (hundredths y.num.natAbs y.den)

/-- The value of a run of decimal digits. -/
def digitsValue (cs : List Char) : Nat :=
  cs.foldl (fun n c => 10 * n + (c.toNat - 48)) 0

/-- The value of an unsigned decimal text: digits, then possibly a point and
digits; reading stops at the first character that fits neither. -/
def parseUnsigned (cs : List Char) : Fraction :=
  let whole := cs.takeWhile Char.isDigit
  match cs.dropWhile Char.isDigit with
  | '.' :: rest =>
    let part := rest.takeWhile Char.isDigit
    ⟨(digitsValue (whole ++ part) : Nat), 10 ^ part.length, Nat.pow_pos (by decide)⟩
  | _ => ⟨(digitsValue whole : Nat), 1, Nat.one_pos⟩

/-- The number `parseFloat` reads from a key that `toFixed(2)` printed, as the
exact decimal value of the text. The double that `parseFloat` returns is the
double nearest to this value; distinct keys have distinct nearest doubles in the
same order, so the comparator of line 130 orders the keys as these values do. -/
def parseFloat (s : String) : Fraction :=
  match s.data with
  | '-' :: cs => let a := parseUnsigned cs; ⟨-a.num, a.den, a.den_pos⟩
  | cs => parseUnsigned cs

/-! ## The OCR response -/

/-- How a JavaScript computation ends in this model: with a value, with a thrown
`TypeError`, or in a way the model does not follow (a coordinate that is not a
finite number of magnitude below `10 ^ 21`). -/
inductive Js (α : Type) where
  | ok (value : α)
  | throws
  | unmodelled
  deriving DecidableEq

namespace Js

/-- Sequencing: the first computation that does not end with a value ends the
whole. -/
def bind {α β : Type} (a : Js α) (f : α → Js β) : Js β :=
  match a with
  | ok v => f v
  | throws => throws
  | unmodelled => unmodelled

end Js

/-- The value of `o?.[0]`: the first element of an array, the property `0` of an
object, the first character of a non-empty string, and `undefined` otherwise. -/
def firstItem (o : Option JVal) : Option JVal :=
  match o with
  | some (JVal.arr xs) => xs.head?
  | some (JVal.obj fields) => fields.lookup "0"
  | some (JVal.str s) => if s = "" then none else some (JVal.str ⟨s.data.take 1⟩)
  | _ => none

/-- The truthiness of `o?.length`: an array or a string has a truthy length when
it is not empty, an object when its property `length` is truthy, and the length
of anything else is `undefined`. -/
def lengthTruthy (o : Option JVal) : Bool :=
  match o with
  | some (JVal.arr xs) => !xs.isEmpty
  | some (JVal.str s) => s != ""
  | some (JVal.obj fields) => truthyU (fields.lookup "length")
  | _ => false

/-- The number `v || 0`. A truthy value that is not a number ends as `other`
says; a number that is not finite is not followed. `value` gives the exact value
of the finite double with a given rendering. -/
def coordinate (value : String → Option Fraction) (other : Js Fraction) (v : Option JVal) :
    Js Fraction :=
  match v with
  | none => Js.ok Fraction.zero
  | some w =>
    if w.truthy then
      match w with
      | JVal.num r =>
        match value r with
        | some q => Js.ok q
        | none => Js.unmodelled
      | _ => other
    else Js.ok Fraction.zero

/-- An element of a row: the object pushed on line 124. -/
structure Entry where
  text : Option JVal
  x : Fraction

/-- The value of `word.boundingPolygon?.normalizedVertices?.[0]`, the anchor of a
word. -/
def anchor (word : JVal) : Option JVal :=
  firstItem (getProp (getProp (some word) "boundingPolygon") "normalizedVertices")

/-- The number `y` of line 117. A truthy `y` that is not a number throws on line
118 (`y.toFixed` is not a function). -/
def wordY (value : String → Option Fraction) (word : JVal) : Js Fraction :=
  coordinate value Js.throws (getProp (anchor word) "y")

/-- The number `x` of line 126. A truthy `x` that is not a number is not
followed: the comparator of line 133 would convert it. -/
def wordX (value : String → Option Fraction) (word : JVal) : Js Fraction :=
  coordinate value Js.unmodelled (getProp (anchor word) "x")

/-- Lines 117 to 127 for one word: its bucket `yBucket` and the entry pushed. A
`null` word throws (`word.boundingPolygon`). A `y` of magnitude `10 ^ 21` or more,
which `toFixed` prints with an exponent, is not followed. -/
def wordEntry (value : String → Option Fraction) (word : JVal) : Js (String × Entry) :=
  match word with
  | JVal.null => Js.throws
  | _ =>
    (wordY value word).bind fun y =>
      if 10 ^ 21 * y.den ≤ y.num.natAbs then Js.unmodelled
      else
        (wordX value word).bind fun x =>
          Js.ok (toFixed2 y, ⟨getProp (some word) "text", x⟩)

/-- The buckets and entries of the words of a page, in input order. -/
def wordEntries (value : String → Option Fraction) : List JVal → Js (List (String × Entry))
  | [] => Js.ok []
  | word :: rest =>
    (wordEntry value word).bind fun e =>
      (wordEntries value rest).bind fun es => Js.ok (e :: es)

/-- Lines 120 to 127: the entry is appended to the group of its bucket; a bucket
seen for the first time becomes the last key of `wordGroups`. -/
def push (wordGroups : List (String × List Entry)) (yBucket : String) (e : Entry) :
    List (String × List Entry) :=
  match wordGroups with
  | [] => [(yBucket, [e])]
  | (k, es) :: rest =>
    if k = yBucket then (k, es ++ [e]) :: rest else (k, es) :: push rest yBucket e

/-- The object `wordGroups` after the loop over the words. -/
def groupWords (keyed : List (String × Entry)) : List (String × List Entry) :=
  keyed.foldl (fun groups ke => push groups ke.1 ke.2) []

/-- The array `sortedY` of line 130: the keys of `wordGroups` in a stable sort by
their numeric value. -/
def sortKeys (keys : List String) : List String :=
  keys.insertionSort (fun a b => (parseFloat a).le (parseFloat b))

/-- The array `lineWords` of line 133: the entries of a row in a stable sort by
`x`. -/
def sortRow (row : List Entry) : List Entry :=
  row.insertionSort (fun a b => a.x.le b.x)

/-- The text an element contributes to `Array.prototype.join`: nothing for
`undefined` and `null`, its `ToString` otherwise (`none` when that throws). -/
def itemText : Option JVal → Option String
  | none => some ""
  | some JVal.null => some ""
  | some v => v.toStr

/-- The texts of `lineWords.map(w => w.text)` as `join` prints them. -/
def rowTexts : List Entry → Js (List String)
  | [] => Js.ok []
  | e :: rest =>
    match itemText e.text with
    | some t => (rowTexts rest).bind fun ts => Js.ok (t :: ts)
    | none => Js.throws

/-- Lines 132 to 136: one line per key of `sortedY`. -/
def rowLines (wordGroups : List (String × List Entry)) : List String → Js (List String)
  | [] => Js.ok []
  | yKey :: rest =>
    (rowTexts (sortRow ((wordGroups.lookup yKey).getD []))).bind fun texts =>
      (rowLines wordGroups rest).bind fun lines => Js.ok (" ".intercalate texts :: lines)

/-- The lines one page adds (the callback of line 113). A `null` page throws
(`page.words`), and so does a `words` value that is neither nullish nor an array
(`forEach` is not a function). -/
def pageLines (value : String → Option Fraction) (page : JVal) : Js (List String) :=
  match page with
  | JVal.null => Js.throws
  | _ =>
    match getProp (some page) "words" with
    | none => Js.ok []
    | some JVal.null => Js.ok []
    | some (JVal.arr words) =>
      (wordEntries value words).bind fun keyed =>
        let wordGroups := groupWords keyed
        rowLines wordGroups (sortKeys (wordGroups.map Prod.fst))
    | some _ => Js.throws

/-- The array `lines` after the loop over the pages. -/
def documentLines (value : String → Option Fraction) : List JVal → Js (List String)
  | [] => Js.ok []
  | page :: rest =>
    (pageLines value page).bind fun l =>
      (documentLines value rest).bind fun ls => Js.ok (l ++ ls)

/-- The function `extractTextLinesFromOCR` of `src/api/sign-oci.js`. A `pages`
value with a truthy `length` that is not an array throws (`forEach` is not a
function). -/
def extractTextLinesFromOCR (value : String → Option Fraction) (response : JVal) : Js String :=
  let pages := getProp (some response) "pages"
  if lengthTruthy pages then
    match pages with
    | some (JVal.arr ps) => (documentLines value ps).bind fun lines => Js.ok ("\n".intercalate lines)
    | _ => Js.throws
  else Js.ok ""

/-! ## Views of the OCR loop used in the statements -/

/-- The words of a page: the elements of `page.words` when it is an array. -/
def pageWords (page : JVal) : List JVal :=
  match getProp (some page) "words" with
  | some (JVal.arr words) => words
  | _ => []

/-- The buckets and entries of the words of a page, in input order, with the
failures of `pageLines`. -/
def pageKeyed (value : String → Option Fraction) (page : JVal) : Js (List (String × Entry)) :=
  match page with
  | JVal.null => Js.throws
  | _ =>
    match getProp (some page) "words" with
    | none => Js.ok []
    | some JVal.null => Js.ok []
    | some (JVal.arr words) => wordEntries value words
    | some _ => Js.throws

/-- The rows of a page before their texts are joined: for each key of `sortedY`,
in this order, the array `lineWords`. -/
def pageRows (keyed : List (String × Entry)) : List (List Entry) :=
  (sortKeys ((groupWords keyed).map Prod.fst)).map fun yKey =>
    sortRow (((groupWords keyed).lookup yKey).getD [])

/-- The lines of a list of rows: each row's texts joined by single spaces. -/
def linesOfRows : List (List Entry) → Js (List String)
  | [] => Js.ok []
  | row :: rest =>
    (rowTexts row).bind fun texts =>
      (linesOfRows rest).bind fun lines => Js.ok (" ".intercalate texts :: lines)

/-- The pages of a response: the elements of `response.pages` when it is an
array. -/
def responsePages (response : JVal) : List JVal :=
  match getProp (some response) "pages" with
  | some (JVal.arr pages) => pages
  | _ => []

/-- The integer of `toFixed(2)` for a number that is not negative: its bucket in
hundredths. -/
def bucketOf (y : Fraction) : Nat :=
  hundredths y.num.natAbs y.den

/-- The rounding in the words of the specification: `y` rounded to 2 decimal
places, a half rounded upwards. -/
def roundTo2Decimals (y : ℚ) : ℚ :=
  (⌊100 * y + 1 / 2⌋ : ℚ) / 100

/-- The number of the output row of a page into which the words of a bucket are
put: the place of the bucket in `sortedY`. -/
def rowIndex (keyed : List (String × Entry)) (yBucket : String) : Nat :=
  (sortKeys ((groupWords keyed).map Prod.fst)).indexOf yBucket

/-- The text an entry contributes to its line. -/
def textOf (e : Entry) : String :=
  (itemText e.text).getD ""

/-- Whether a coordinate is missing, falsy, or a finite number (of magnitude
below `10 ^ 21` when `limit` is set). -/
def coordinateOk (value : String → Option Fraction) (limit : Bool) (v : Option JVal) : Bool :=
  match v with
  | none => true
  | some w =>
    !w.truthy ||
      match w with
      | JVal.num r =>
        match value r with
        | some q => !limit || decide (q.num.natAbs < 10 ^ 21 * q.den)
        | none => false
      | _ => false

/-- Whether a word is well shaped: it is not `null`, each of its coordinates is
missing, falsy or a finite number (`y` of magnitude below `10 ^ 21`), and its text
can be converted to a string. -/
def wordOk (value : String → Option Fraction) (word : JVal) : Bool :=
  match word with
  | JVal.null => false
  | _ =>
    coordinateOk value true (getProp (anchor word) "y") &&
      coordinateOk value false (getProp (anchor word) "x") &&
      (itemText (getProp (some word) "text")).isSome

/-- Whether a page is well shaped: it is not `null`, and its `words` are missing,
`null`, or an array of well-shaped words. -/
def pageOk (value : String → Option Fraction) (page : JVal) : Bool :=
  match page with
  | JVal.null => false
  | _ =>
    match getProp (some page) "words" with
    | none => true
    | some JVal.null => true
    | some (JVal.arr words) => words.all (wordOk value)
    | some _ => false

/-- Whether a response is well shaped: its `pages` are an array of well-shaped
pages, or a value without a truthy `length`. -/
def wellShaped (value : String → Option Fraction) (response : JVal) : Bool :=
  match getProp (some response) "pages" with
  | some (JVal.arr pages) => pages.all (pageOk value)
  | pages => !lengthTruthy pages

/-! ## Documents for examples -/

/-- The exact values of the doubles used in the examples, by rendering. -/
def exampleValue : String → Option Fraction
  | "0.5" => some ⟨1, 2, by decide⟩
  | "0.1" => some ⟨3602879701896397, 36028797018963968, by decide⟩
  | "0.2" => some ⟨3602879701896397, 18014398509481984, by decide⟩
  | "0.101" => some ⟨3638908498915361, 36028797018963968, by decide⟩
  | "0.104" => some ⟨7493989779944505, 72057594037927936, by decide⟩
  | "0.106" => some ⟨7638104968020361, 72057594037927936, by decide⟩
  | "0.12" => some ⟨1080863910568919, 9007199254740992, by decide⟩
  | _ => none

/-- A word with the given text and first vertex. -/
def exampleWord (text x y : String) : JVal :=
  JVal.obj
    [("text", JVal.str text),
     ("boundingPolygon",
        JVal.obj [("normalizedVertices", JVal.arr [JVal.obj [("x", JVal.num x), ("y", JVal.num y)]])])]

/-- The one-page document of the specification: B at (0.5, 0.10), A at
(0.1, 0.10), C at (0.2, 0.50). -/
def exampleDocument : JVal :=
  JVal.obj
    [("pages", JVal.arr
      [JVal.obj [("words", JVal.arr
        [exampleWord "B" "0.5" "0.1", exampleWord "A" "0.1" "0.1", exampleWord "C" "0.2" "0.5"])]])]

/-- A two-page document whose two words have the same bucket. -/
def exampleTwoPages : JVal :=
  JVal.obj
    [("pages", JVal.arr
      [JVal.obj [("words", JVal.arr [exampleWord "first" "0.5" "0.1"])],
       JVal.obj [("words", JVal.arr [exampleWord "second" "0.1" "0.1"])]])]

/-- A document with a page without words and a page with an empty word list. -/
def exampleNoWords : JVal :=
  JVal.obj [("pages", JVal.arr [JVal.obj [], JVal.obj [("words", JVal.arr [])]])]

/-- A page in which three words without geometry, hence with `x` and `y` equal to
0, come in the order first, second, third, around a word of another row. -/
def exampleTies : JVal :=
  JVal.obj [("words", JVal.arr
    [JVal.obj [("text", JVal.str "first")], exampleWord "other" "0.2" "0.5",
     JVal.obj [("text", JVal.str "second")], JVal.obj [("text", JVal.str "third")]])]

/-- The buckets and entries of the words of `exampleTies`. -/
def exampleTiesKeyed : List (String × Entry) :=
  [("0.00", ⟨some (JVal.str "first"), Fraction.zero⟩),
   ("0.50", ⟨some (JVal.str "other"), ⟨3602879701896397, 18014398509481984, by decide⟩⟩),
   ("0.00", ⟨some (JVal.str "second"), Fraction.zero⟩),
   ("0.00", ⟨some (JVal.str "third"), Fraction.zero⟩)]

/-- A page whose two words have `y` 0.101 and 0.104. -/
def exampleSameRow : List JVal :=
  [exampleWord "left" "0.1" "0.101", exampleWord "right" "0.5" "0.104"]

/-- A page whose two words have `y` 0.10 and 0.12. -/
def exampleTwoRows : List JVal :=
  [exampleWord "upper" "0.5" "0.1", exampleWord "lower" "0.1" "0.12"]

/-- A page whose two words have `y` 0.104 and 0.106, less than 0.005 apart. -/
def exampleNearWords : List JVal :=
  [exampleWord "q" "0.1" "0.104", exampleWord "s" "0.5" "0.106"]

/-- The document with one page of the given words. -/
def exampleOnePage (words : List JVal) : JVal :=
  JVal.obj [("pages", JVal.arr [JVal.obj [("words", JVal.arr words)]])]

/-- The buckets and entries of the words of `exampleSameRow`. -/
def exampleSameRowKeyed : List (String × Entry) :=
  [("0.10", ⟨some (JVal.str "left"), ⟨3602879701896397, 36028797018963968, by decide⟩⟩),
   ("0.10", ⟨some (JVal.str "right"), ⟨1, 2, by decide⟩⟩)]

/-- The exact value of the double 0.101. -/
def example0101 : Fraction := ⟨3638908498915361, 36028797018963968, by decide⟩

/-- The exact value of the double 0.104. -/
def example0104 : Fraction := ⟨7493989779944505, 72057594037927936, by decide⟩

/-- The exact value of the double 0.106. -/
def example0106 : Fraction := ⟨7638104968020361, 72057594037927936, by decide⟩

/-- The buckets and entries of the words of `exampleNearWords`. -/
def exampleNearWordsKeyed : List (String × Entry) :=
  [("0.10", ⟨some (JVal.str "q"), ⟨3602879701896397, 36028797018963968, by decide⟩⟩),
   ("0.11", ⟨some (JVal.str "s"), ⟨1, 2, by decide⟩⟩)]

/-- The words of the page of `exampleDocument`. -/
def exampleReadingWords : List JVal :=
  [exampleWord "B" "0.5" "0.1", exampleWord "A" "0.1" "0.1", exampleWord "C" "0.2" "0.5"]

/-- A one-page document whose word has the text `"0.5"`, not a number, as its
`y`. -/
def exampleTextualY : JVal :=
  exampleOnePage
    [JVal.obj
      [("text", JVal.str "word"),
       ("boundingPolygon",
          JVal.obj [("normalizedVertices",
            JVal.arr [JVal.obj [("x", JVal.num "0.5"), ("y", JVal.str "0.5")]])])]]

/-- A one-page document whose list of words holds `null`. -/
def exampleNullWord : JVal :=
  exampleOnePage [JVal.null]

/-- A one-page document with a word without geometry, a word with full geometry,
a word whose polygon has no vertices, a word whose first vertex has no `y` and a
word whose first vertex has no `x`. -/
def exampleDegraded : JVal :=
  exampleOnePage
    [JVal.obj [("text", JVal.str "bare")],
     exampleWord "full" "0.2" "0.5",
     JVal.obj [("text", JVal.str "empty"),
       ("boundingPolygon", JVal.obj [("normalizedVertices", JVal.arr [])])],
     JVal.obj [("text", JVal.str "noY"),
       ("boundingPolygon",
          JVal.obj [("normalizedVertices", JVal.arr [JVal.obj [("x", JVal.num "0.5")]])])],
     JVal.obj [("text", JVal.str "noX"),
       ("boundingPolygon",
          JVal.obj [("normalizedVertices", JVal.arr [JVal.obj [("y", JVal.num "0.5")]])])]]

/-! ## Lemmas on the encodings -/

/-- Reading a hexadecimal digit back gives its value. -/
theorem hexVal_hexDigit (n : Nat) (h : n < 16) : hexVal (hexDigit n) = some n := by
  interval_cases n <;> decide

/-- A byte is sixteen times its high digit plus its low digit. -/
theorem uint8_ofNat_div_mod (b : UInt8) : UInt8.ofNat (16 * (b.toNat / 16) + b.toNat % 16) = b := by
  rw [Nat.div_add_mod]
  cases b with
  | mk v =>
    apply UInt8.ext
    simp [UInt8.ofNat, UInt8.toNat, Fin.ofNat]

/-- Decoding the hexadecimal digits of a list of bytes gives the bytes back. -/
theorem hexDecodeChars_flatMap (bs : List UInt8) :
    hexDecodeChars (bs.flatMap (fun b => [hexDigit (b.toNat / 16), hexDigit (b.toNat % 16)])) = bs := by
  induction bs with
  | nil => rfl
  | cons b bs ih =>
    have hb : b.toNat < 256 := b.val.isLt
    rw [List.flatMap_cons]
    show hexDecodeChars (hexDigit (b.toNat / 16) :: hexDigit (b.toNat % 16) :: _) = _
    rw [hexDecodeChars, hexVal_hexDigit _ (by omega), hexVal_hexDigit _ (Nat.mod_lt _ (by norm_num))]
    simp only [uint8_ofNat_div_mod]
    exact congrArg (List.cons b) ih

/-- The round trip of lines 46 and 47, `Buffer.from(digest('hex'), 'hex')`, is the identity on bytes. -/
theorem hexDecode_hexEncode (bs : List UInt8) : hexDecode (hexEncode bs) = bs :=
  hexDecodeChars_flatMap bs

/-- The byte size of a list of characters is the length of its UTF-8 encoding. -/
theorem utf8ByteSize_go_eq (cs : List Char) :
    String.utf8ByteSize.go cs = (cs.flatMap String.utf8EncodeChar).length := by
  induction cs with
  | nil => rfl
  | cons c cs ih =>
    rw [String.utf8ByteSize.go, ih, List.flatMap_cons, List.length_append,
      String.length_utf8EncodeChar, Nat.add_comm]

/-- The value of `Buffer.byteLength` is the number of UTF-8 bytes of the text. -/
theorem utf8_length (s : String) : (utf8 s).length = s.utf8ByteSize := by
  cases s with
  | mk cs => exact (utf8ByteSize_go_eq cs).symm

/-- The value of `sha256base64` is the base64 text of the SHA-256 hash of the UTF-8 bytes. -/
theorem contentDigest_eq {Key : Type} (rt : Runtime Key) (s : String) :
    contentDigest rt s = base64 (rt.sha256 (utf8 s)) := by
  unfold contentDigest
  rw [hexDecode_hexEncode]

/-- The join of three lines. -/
theorem intercalate_three (sep a b c : String) : sep.intercalate [a, b, c] = a ++ sep ++ b ++ sep ++ c := by
  simp [String.intercalate, String.intercalate.go]

/-- The join of six lines. -/
theorem intercalate_six (sep a b c d e f : String) :
    sep.intercalate [a, b, c, d, e, f] = a ++ sep ++ b ++ sep ++ c ++ sep ++ d ++ sep ++ e ++ sep ++ f := by
  simp [String.intercalate, String.intercalate.go]

/-- A common start of two texts can be dropped from an equation. -/
theorem append_right_cancel (a b c : String) (h : a ++ b = a ++ c) : b = c := by
  have hd := congrArg String.data h
  simp only [String.data_append] at hd
  exact String.ext (List.append_cancel_left hd)

/-- A common end of two texts can be dropped from an equation. -/
theorem append_left_cancel (a b c : String) (h : a ++ c = b ++ c) : a = b := by
  have hd := congrArg String.data h
  simp only [String.data_append] at hd
  exact String.ext (List.append_cancel_right hd)

/-- Texts with a common start are equal exactly when the rests are. -/
theorem append_right_cancel_iff (a b c : String) : a ++ b = a ++ c ↔ b = c :=
  ⟨append_right_cancel a b c, fun h => by rw [h]⟩

/-- Texts with a common end are equal exactly when the starts are. -/
theorem append_left_cancel_iff (a b c : String) : a ++ c = b ++ c ↔ a = b :=
  ⟨append_left_cancel a b c, fun h => by rw [h]⟩

/-! ## Lemmas on the handler -/

/-- What is known when lines 19 to 76 run without an exception. -/
theorem signAndCall_eq_some {Key : Type} (rt : Runtime Key) (env : Env) (date : String) (p : Params)
    (s : Signed) (h : signAndCall rt env date p = some s) :
    ∃ raw privateKey method path pathStr service region domain,
      env.OCI_PRIVATE_KEY = some raw ∧
      rt.privateKeyFromPem (normalizePem raw) = some privateKey ∧
      p.method = some (JVal.str method) ∧ p.path = some path ∧ path.toStr = some pathStr ∧
      p.service.toStr = some service ∧ p.region.toStr = some region ∧
      p.domain.toStr = some domain ∧
      s = signWith rt
        (envText env.OCI_TENANCY_OCID ++ "/" ++ envText env.OCI_USER_OCID ++ "/" ++
          envText env.OCI_FINGERPRINT)
        (normalizePem raw) privateKey date method pathStr
        (service ++ "." ++ region ++ "." ++ domain) p.body := by
  unfold signAndCall at h
  split at h
  · exact absurd h (by simp)
  · rename_i raw hraw
    split at h
    · rename_i service region domain hs hr hd
      split at h
      · rename_i method path hm hp
        split at h
        · rename_i pathStr hps
          dsimp only at h
          split at h
          · rename_i key hk
            exact ⟨raw, key, method, path, pathStr, service, region, domain, hraw, hk, hm, hp, hps,
              hs, hr, hd, (Option.some.inj h).symm⟩
          · exact absurd h (by simp)
        · exact absurd h (by simp)
      · exact absurd h (by simp)
    · exact absurd h (by simp)

/-- The handler reaches `fetch` only after the check of line 15 and an exception-free run. -/
theorem handler_sent {Key : Type} (rt : Runtime Key) (env : Env) (date : String)
    (req : Option JVal) (s : Signed) (h : handler rt env date req = Outcome.sent s) :
    truthyU (destructure req).method = true ∧ truthyU (destructure req).path = true ∧
      signAndCall rt env date (destructure req) = some s := by
  unfold handler at h
  simp only at h
  split at h
  · exact absurd h (by simp)
  · rename_i hv
    simp only [Bool.or_eq_true, Bool.not_eq_true', not_or, Bool.not_eq_false] at hv
    refine ⟨hv.1, hv.2, ?_⟩
    split at h
    · rename_i call hc
      rw [hc, Outcome.sent.inj h]
    · exact absurd h (by simp)

/-- The locals after line 58 when the condition of line 41 fails. -/
theorem draft_of_not_triggered {Key : Type} (rt : Runtime Key) (date method pathStr fullHost : String)
    (body : Option JVal) (h : digestTriggered rt method body = false) :
    draft rt date method pathStr fullHost body =
      { headersToSign := ["(request-target)", "date", "host"]
        signingStringArray :=
          ["(request-target): " ++ rt.toLowerCase method ++ " " ++ pathStr,
           "date: " ++ date, "host: " ++ fullHost]
        headers := [("Date", date), ("Host", fullHost)]
        contentLength := 0
        bodyString := "" } := by
  cases body with
  | none => rfl
  | some b =>
    simp only [draft, h]
    rfl

/-- The locals after line 58 when the condition of line 41 holds. -/
theorem draft_of_triggered {Key : Type} (rt : Runtime Key) (date method pathStr fullHost : String)
    (b : JVal) (h : digestTriggered rt method (some b) = true) :
    draft rt date method pathStr fullHost (some b) =
      { headersToSign :=
          ["(request-target)", "date", "host", "x-content-sha256", "content-type", "content-length"]
        signingStringArray :=
          ["(request-target): " ++ rt.toLowerCase method ++ " " ++ pathStr,
           "date: " ++ date, "host: " ++ fullHost,
           "x-content-sha256: " ++ contentDigest rt b.stringify,
           "content-type: application/json",
           "content-length: " ++ toString b.stringify.utf8ByteSize]
        headers :=
          [("Date", date), ("Host", fullHost), ("Content-Type", "application/json"),
           ("Content-Length", toString b.stringify.utf8ByteSize),
           ("x-content-sha256", contentDigest rt b.stringify)]
        contentLength := b.stringify.utf8ByteSize
        bodyString := b.stringify } := by
  simp only [draft, h]
  simp [setProp]

/-- A request whose fields are strings, with non-empty method and path, reaches `fetch` as soon as the key is set and parses. -/
theorem handler_of_strings {Key : Type} (rt : Runtime Key) (env : Env) (date : String)
    (req : Option JVal) (m p svc reg dom raw : String) (body : Option JVal) (key : Key)
    (hreq : destructure req =
      { method := some (JVal.str m), path := some (JVal.str p), body := body,
        service := JVal.str svc, domain := JVal.str dom, region := JVal.str reg })
    (hm : m ≠ "") (hp : p ≠ "")
    (hraw : env.OCI_PRIVATE_KEY = some raw)
    (hkey : rt.privateKeyFromPem (normalizePem raw) = some key) :
    handler rt env date req = Outcome.sent
      (signWith rt
        (envText env.OCI_TENANCY_OCID ++ "/" ++ envText env.OCI_USER_OCID ++ "/" ++
          envText env.OCI_FINGERPRINT)
        (normalizePem raw) key date m p (svc ++ "." ++ reg ++ "." ++ dom) body) := by
  unfold handler
  simp only [hreq]
  simp [truthyU, JVal.truthy, hm, hp, signAndCall, hraw, hkey, JVal.toStr]

/-- Upper-casing leaves POST, PUT and PATCH unchanged. -/
theorem upper_mem_of_verb {Key : Type} (rt : Runtime Key) (m : String)
    (h : m ∈ mutatingVerbs ∨ rt.toUpperCase m ∈ mutatingVerbs) :
    rt.toUpperCase m ∈ mutatingVerbs := by
  rcases h with h | h
  · simp only [mutatingVerbs, List.mem_cons, List.mem_singleton, List.not_mem_nil, or_false] at h
    rcases h with h | h | h <;> subst h <;>
      rw [rt.toUpperCase_ascii _ (by decide)] <;> decide
  · exact h

/-- The header mapping sent when the condition of line 41 fails. -/
theorem headers_of_not_triggered {Key : Type} (rt : Runtime Key) (keyId pem : String) (key : Key)
    (date method pathStr fullHost : String) (body : Option JVal)
    (h : digestTriggered rt method body = false) :
    (signWith rt keyId pem key date method pathStr fullHost body).headers =
      [("Date", date), ("Host", fullHost),
       ("Authorization", authorization keyId ["(request-target)", "date", "host"]
          (signWith rt keyId pem key date method pathStr fullHost body).signature)] := by
  simp [signWith, draft_of_not_triggered rt date method pathStr fullHost body h, setProp]

/-- The header mapping sent when the condition of line 41 holds. -/
theorem headers_of_triggered {Key : Type} (rt : Runtime Key) (keyId pem : String) (key : Key)
    (date method pathStr fullHost : String) (b : JVal)
    (h : digestTriggered rt method (some b) = true) :
    (signWith rt keyId pem key date method pathStr fullHost (some b)).headers =
      [("Date", date), ("Host", fullHost), ("Content-Type", "application/json"),
       ("Content-Length", toString b.stringify.utf8ByteSize),
       ("x-content-sha256", contentDigest rt b.stringify),
       ("Authorization",
          authorization keyId
            ["(request-target)", "date", "host", "x-content-sha256", "content-type",
             "content-length"]
            (signWith rt keyId pem key date method pathStr fullHost (some b)).signature)] := by
  simp [signWith, draft_of_triggered rt date method pathStr fullHost b h, setProp]

/-- What is known when the handler reaches `fetch`. -/
theorem handler_sent_inv {Key : Type} (rt : Runtime Key) (env : Env) (date : String)
    (req : Option JVal) (s : Signed) (h : handler rt env date req = Outcome.sent s) :
    ∃ raw privateKey method path pathStr service region domain,
      env.OCI_PRIVATE_KEY = some raw ∧
      rt.privateKeyFromPem (normalizePem raw) = some privateKey ∧
      (destructure req).method = some (JVal.str method) ∧
      (destructure req).path = some path ∧ path.toStr = some pathStr ∧
      (destructure req).service.toStr = some service ∧
      (destructure req).region.toStr = some region ∧
      (destructure req).domain.toStr = some domain ∧
      s = signWith rt
        (envText env.OCI_TENANCY_OCID ++ "/" ++ envText env.OCI_USER_OCID ++ "/" ++
          envText env.OCI_FINGERPRINT)
        (normalizePem raw) privateKey date method pathStr
        (service ++ "." ++ region ++ "." ++ domain) (destructure req).body :=
  signAndCall_eq_some rt env date (destructure req) s (handler_sent rt env date req s h).2.2

/-- The `Authorization` entry when the condition of line 41 fails. -/
theorem lookup_authorization_of_not_triggered {Key : Type} (rt : Runtime Key) (keyId pem : String)
    (key : Key) (date method pathStr fullHost : String) (body : Option JVal)
    (h : digestTriggered rt method body = false) :
    (signWith rt keyId pem key date method pathStr fullHost body).headers.lookup "Authorization" =
      some (authorization keyId ["(request-target)", "date", "host"]
        (signWith rt keyId pem key date method pathStr fullHost body).signature) := by
  rw [headers_of_not_triggered rt keyId pem key date method pathStr fullHost body h]
  simp [List.lookup]

/-- The `Authorization` entry when the condition of line 41 holds. -/
theorem lookup_authorization_of_triggered {Key : Type} (rt : Runtime Key) (keyId pem : String)
    (key : Key) (date method pathStr fullHost : String) (b : JVal)
    (h : digestTriggered rt method (some b) = true) :
    (signWith rt keyId pem key date method pathStr fullHost (some b)).headers.lookup
        "Authorization" =
      some (authorization keyId
        ["(request-target)", "date", "host", "x-content-sha256", "content-type",
         "content-length"]
        (signWith rt keyId pem key date method pathStr fullHost (some b)).signature) := by
  rw [headers_of_triggered rt keyId pem key date method pathStr fullHost b h]
  simp [List.lookup]

/-- The condition of line 41 holds only for a body that is there. -/
theorem digestTriggered_some_of_true {Key : Type} (rt : Runtime Key) (method : String)
    (body : Option JVal) (h : digestTriggered rt method body = true) :
    ∃ b, body = some b := by
  cases body with
  | none => simp [digestTriggered, truthyU] at h
  | some b => exact ⟨b, rfl⟩

/-- The three mandatory lines start with the three mandatory names. -/
theorem mandatory_lines_match {Key : Type} (rt : Runtime Key) (date m pathStr fullHost : String)
    (names lines : List String) (h : List.Forall₂ (fun name line => ∃ v, line = name ++ ": " ++ v)
      names lines) :
    List.Forall₂ (fun name line => ∃ v, line = name ++ ": " ++ v)
      ("(request-target)" :: "date" :: "host" :: names)
      (("(request-target): " ++ rt.toLowerCase m ++ " " ++ pathStr) :: ("date: " ++ date) ::
        ("host: " ++ fullHost) :: lines) := by
  refine List.Forall₂.cons ⟨rt.toLowerCase m ++ " " ++ pathStr, ?_⟩
    (List.Forall₂.cons ⟨date, ?_⟩ (List.Forall₂.cons ⟨fullHost, ?_⟩ h))
  · have : "(request-target): " = "(request-target)" ++ ": " := by decide
    rw [this]
    simp only [String.append_assoc]
  · have : "date: " = "date" ++ ": " := by decide
    rw [this]
  · have : "host: " = "host" ++ ": " := by decide
    rw [this]

/-- The `Authorization` entry is built from the key id, the signed header names and the signature. -/
theorem lookup_authorization_signWith {Key : Type} (rt : Runtime Key) (keyId pem : String)
    (key : Key) (date method pathStr fullHost : String) (body : Option JVal) :
    (signWith rt keyId pem key date method pathStr fullHost body).headers.lookup "Authorization" =
      some (authorization keyId
        (signWith rt keyId pem key date method pathStr fullHost body).headersToSign
        (signWith rt keyId pem key date method pathStr fullHost body).signature) := by
  cases ht : digestTriggered rt method body with
  | false =>
    rw [lookup_authorization_of_not_triggered rt _ _ key date method pathStr _ body ht]
    simp only [signWith, draft_of_not_triggered rt date method pathStr _ body ht]
  | true =>
    obtain ⟨b, rfl⟩ := digestTriggered_some_of_true rt method body ht
    rw [lookup_authorization_of_triggered rt _ _ key date method pathStr _ b ht]
    simp only [signWith, draft_of_triggered rt date method pathStr _ b ht]

/-- Every signing line starts with the signed header name at the same position. -/
theorem draft_names_match_lines {Key : Type} (rt : Runtime Key) (date m pathStr fullHost : String)
    (body : Option JVal) :
    List.Forall₂ (fun name line => ∃ value, line = name ++ ": " ++ value)
      (draft rt date m pathStr fullHost body).headersToSign
      (draft rt date m pathStr fullHost body).signingStringArray := by
  cases ht : digestTriggered rt m body with
  | false =>
    rw [draft_of_not_triggered rt date m pathStr _ body ht]
    exact mandatory_lines_match rt date m pathStr _ [] [] List.Forall₂.nil
  | true =>
    obtain ⟨b, rfl⟩ := digestTriggered_some_of_true rt m body ht
    rw [draft_of_triggered rt date m pathStr _ b ht]
    refine mandatory_lines_match rt date m pathStr _ _ _
      (List.Forall₂.cons ⟨contentDigest rt b.stringify, ?_⟩
        (List.Forall₂.cons ⟨"application/json", ?_⟩
          (List.Forall₂.cons ⟨toString b.stringify.utf8ByteSize, ?_⟩ List.Forall₂.nil)))
    · have : "x-content-sha256: " = "x-content-sha256" ++ ": " := by decide
      rw [this]
    · decide
    · have : "content-length: " = "content-length" ++ ": " := by decide
      rw [this]

/-- What is known when a request whose fields are strings reaches `fetch`. -/
theorem handler_sent_of_strings {Key : Type} (rt : Runtime Key) (env : Env) (date : String)
    (req : Option JVal) (m p svc reg dom : String) (body : Option JVal) (s : Signed)
    (hreq : destructure req =
      { method := some (JVal.str m), path := some (JVal.str p), body := body,
        service := JVal.str svc, domain := JVal.str dom, region := JVal.str reg })
    (hs : handler rt env date req = Outcome.sent s) :
    ∃ raw key, env.OCI_PRIVATE_KEY = some raw ∧
      rt.privateKeyFromPem (normalizePem raw) = some key ∧
      s = signWith rt
        (envText env.OCI_TENANCY_OCID ++ "/" ++ envText env.OCI_USER_OCID ++ "/" ++
          envText env.OCI_FINGERPRINT)
        (normalizePem raw) key date m p (svc ++ "." ++ reg ++ "." ++ dom) body := by
  obtain ⟨raw, key, m', path, pathStr, svc', reg', dom', hraw, hkey, hm, hp, hps, hsv, hrg, hdm,
    rfl⟩ := handler_sent_inv rt env date req s hs
  rw [hreq] at hm hp hsv hrg hdm ⊢
  simp only [Option.some.injEq, JVal.str.injEq, JVal.toStr] at hm hp hsv hrg hdm
  subst hm hp hsv hrg hdm
  simp only [JVal.toStr, Option.some.injEq] at hps
  subst hps
  exact ⟨raw, key, hraw, hkey, rfl⟩

/-- The signing string of a request without a body. -/
theorem signingString_of_no_body {Key : Type} (rt : Runtime Key) (keyId pem : String) (key : Key)
    (date m p fullHost : String) (body : Option JVal) (h : truthyU body = false) :
    (signWith rt keyId pem key date m p fullHost body).signingString =
      "(request-target): " ++ rt.toLowerCase m ++ " " ++ p ++ "\n" ++ ("date: " ++ date) ++
        "\n" ++ ("host: " ++ fullHost) := by
  simp only [signWith, draft_of_not_triggered rt date m p fullHost body
    (by simp [digestTriggered, h]), intercalate_three]

/-! ## The signing string and the signed header list -/

/-- C1: for every method, path, host and timestamp, a request without a body
(no `body`, or a falsy one) is signed over exactly three lines,
`(request-target): <lower-cased method> <path>`, `date: <timestamp>` and
`host: <fullHost>`, joined by single line feeds with none at the end. -/
theorem signingString_without_body {Key : Type} (rt : Runtime Key) (env : Env) (date : String)
    (req : Option JVal) (m p svc reg dom raw : String) (body : Option JVal) (key : Key)
    (hreq : destructure req =
      { method := some (JVal.str m), path := some (JVal.str p), body := body,
        service := JVal.str svc, domain := JVal.str dom, region := JVal.str reg })
    (hm : m ≠ "") (hp : p ≠ "")
    (hraw : env.OCI_PRIVATE_KEY = some raw)
    (hkey : rt.privateKeyFromPem (normalizePem raw) = some key)
    (hbody : truthyU body = false) :
    ∃ s, handler rt env date req = Outcome.sent s ∧
      s.fullHost = svc ++ "." ++ reg ++ "." ++ dom ∧
      s.signingStringArray =
        ["(request-target): " ++ rt.toLowerCase m ++ " " ++ p, "date: " ++ date,
         "host: " ++ s.fullHost] ∧
      s.signingString =
        "(request-target): " ++ rt.toLowerCase m ++ " " ++ p ++ "\n" ++
          ("date: " ++ date) ++ "\n" ++ ("host: " ++ s.fullHost) := by
  refine ⟨_, handler_of_strings rt env date req m p svc reg dom raw body key hreq hm hp hraw hkey,
    rfl, ?_, ?_⟩
  · simp only [signWith, draft_of_not_triggered rt date m p _ body
      (by simp [digestTriggered, hbody])]
  · simp only [signWith, draft_of_not_triggered rt date m p _ body
      (by simp [digestTriggered, hbody]), intercalate_three]

theorem signingString_without_body_witness :
    ∃ s, handler exampleRuntime exampleEnv exampleDate exampleGet = Outcome.sent s ∧
      s.fullHost = "objectstorage" ++ "." ++ "ap-singapore-1" ++ "." ++ "oraclecloud.com" ∧
      s.signingStringArray =
        ["(request-target): " ++ exampleRuntime.toLowerCase "GET" ++ " " ++ "/n/ns/b/bucket",
         "date: " ++ exampleDate, "host: " ++ s.fullHost] ∧
      s.signingString =
        "(request-target): " ++ exampleRuntime.toLowerCase "GET" ++ " " ++ "/n/ns/b/bucket" ++
          "\n" ++ ("date: " ++ exampleDate) ++ "\n" ++ ("host: " ++ s.fullHost) :=
  signingString_without_body exampleRuntime exampleEnv exampleDate exampleGet
    "GET" "/n/ns/b/bucket" "objectstorage" "ap-singapore-1" "oraclecloud.com" "KEY" none "KEY"
    rfl (by decide) (by decide) rfl rfl rfl

/-- C2: for every request with a body present (truthy) and method POST, PUT or
PATCH, the signing string is the three mandatory lines followed by
`x-content-sha256: <digest>`, `content-type: application/json` and
`content-length: <n>`, where the digest is the base64 text of the SHA-256 hash of
the UTF-8 bytes of `JSON.stringify(body)` and `n` is the decimal number of those
bytes. -/
theorem signingString_with_body {Key : Type} (rt : Runtime Key) (env : Env) (date : String)
    (req : Option JVal) (m p svc reg dom raw : String) (b : JVal) (key : Key)
    (hreq : destructure req =
      { method := some (JVal.str m), path := some (JVal.str p), body := some b,
        service := JVal.str svc, domain := JVal.str dom, region := JVal.str reg })
    (hm : m ≠ "") (hp : p ≠ "")
    (hraw : env.OCI_PRIVATE_KEY = some raw)
    (hkey : rt.privateKeyFromPem (normalizePem raw) = some key)
    (hbody : b.truthy = true)
    (hverb : m ∈ mutatingVerbs ∨ rt.toUpperCase m ∈ mutatingVerbs) :
    ∃ s, handler rt env date req = Outcome.sent s ∧
      s.signingStringArray =
        ["(request-target): " ++ rt.toLowerCase m ++ " " ++ p, "date: " ++ date,
         "host: " ++ s.fullHost,
         "x-content-sha256: " ++ base64 (rt.sha256 (utf8 b.stringify)),
         "content-type: application/json",
         "content-length: " ++ toString (utf8 b.stringify).length] ∧
      s.signingString =
        "(request-target): " ++ rt.toLowerCase m ++ " " ++ p ++ "\n" ++
          ("date: " ++ date) ++ "\n" ++ ("host: " ++ s.fullHost) ++ "\n" ++
          ("x-content-sha256: " ++ base64 (rt.sha256 (utf8 b.stringify))) ++ "\n" ++
          "content-type: application/json" ++ "\n" ++
          ("content-length: " ++ toString (utf8 b.stringify).length) := by
  have ht : digestTriggered rt m (some b) = true := by
    simp [digestTriggered, truthyU, hbody, upper_mem_of_verb rt m hverb]
  refine ⟨_, handler_of_strings rt env date req m p svc reg dom raw (some b) key hreq hm hp hraw
    hkey, ?_, ?_⟩
  · simp only [signWith, draft_of_triggered rt date m p _ b ht, contentDigest_eq, utf8_length]
  · simp only [signWith, draft_of_triggered rt date m p _ b ht, contentDigest_eq, utf8_length,
      intercalate_six]

theorem signingString_with_body_witness :
    (∃ s, handler exampleRuntime exampleEnv exampleDate examplePost = Outcome.sent s ∧
      s.signingStringArray =
        ["(request-target): " ++ exampleRuntime.toLowerCase "POST" ++ " " ++
           "/20220125/actions/analyzeDocument",
         "date: " ++ exampleDate,
         "host: " ++ s.fullHost,
         "x-content-sha256: " ++
           base64 (exampleRuntime.sha256 (utf8 (JVal.obj [("name", JVal.str "café")]).stringify)),
         "content-type: application/json",
         "content-length: " ++
           toString (utf8 (JVal.obj [("name", JVal.str "café")]).stringify).length] ∧
      s.signingString =
        "(request-target): " ++ exampleRuntime.toLowerCase "POST" ++ " " ++
          "/20220125/actions/analyzeDocument" ++ "\n" ++
          ("date: " ++ exampleDate) ++ "\n" ++ ("host: " ++ s.fullHost) ++ "\n" ++
          ("x-content-sha256: " ++
            base64 (exampleRuntime.sha256
              (utf8 (JVal.obj [("name", JVal.str "café")]).stringify))) ++ "\n" ++
          "content-type: application/json" ++ "\n" ++
          ("content-length: " ++
            toString (utf8 (JVal.obj [("name", JVal.str "café")]).stringify).length)) ∧
    toString (utf8 (JVal.obj [("name", JVal.str "café")]).stringify).length = "16" ∧
    (JVal.obj [("name", JVal.str "café")]).stringify.length = 15 :=
  ⟨signingString_with_body exampleRuntime exampleEnv exampleDate examplePost
    "POST" "/20220125/actions/analyzeDocument" "vision" "eu-frankfurt-1" "oraclecloud.com" "KEY"
    (JVal.obj [("name", JVal.str "café")]) "KEY"
    rfl (by decide) (by decide) rfl rfl rfl (Or.inl (by decide)), by decide, by decide⟩

/-- C3: for every request with a body present (truthy) and method POST, PUT or
PATCH, the list of signed header names is `(request-target)`, `date`, `host`,
`x-content-sha256`, `content-type`, `content-length` in that order, and the
`headers` field of the `Authorization` value is that list joined by single
spaces. -/
theorem headersToSign_with_body {Key : Type} (rt : Runtime Key) (env : Env) (date : String)
    (req : Option JVal) (m p svc reg dom raw : String) (b : JVal) (key : Key)
    (hreq : destructure req =
      { method := some (JVal.str m), path := some (JVal.str p), body := some b,
        service := JVal.str svc, domain := JVal.str dom, region := JVal.str reg })
    (hm : m ≠ "") (hp : p ≠ "")
    (hraw : env.OCI_PRIVATE_KEY = some raw)
    (hkey : rt.privateKeyFromPem (normalizePem raw) = some key)
    (hbody : b.truthy = true)
    (hverb : m ∈ mutatingVerbs ∨ rt.toUpperCase m ∈ mutatingVerbs) :
    ∃ s, handler rt env date req = Outcome.sent s ∧
      s.headersToSign =
        ["(request-target)", "date", "host", "x-content-sha256", "content-type",
         "content-length"] ∧
      s.headers.lookup "Authorization" = some
        ("Signature version=\"1\",keyId=\"" ++ s.keyId ++
          "\",algorithm=\"rsa-sha256\",headers=\"" ++
          "(request-target) date host x-content-sha256 content-type content-length" ++
          "\",signature=\"" ++ s.signature ++ "\"") := by
  have ht : digestTriggered rt m (some b) = true := by
    simp [digestTriggered, truthyU, hbody, upper_mem_of_verb rt m hverb]
  refine ⟨_, handler_of_strings rt env date req m p svc reg dom raw (some b) key hreq hm hp hraw
    hkey, ?_, ?_⟩
  · simp only [signWith, draft_of_triggered rt date m p _ b ht]
  · rw [headers_of_triggered rt _ _ key date m p _ b ht]
    simp [List.lookup, authorization, signWith, intercalate_six]

theorem headersToSign_with_body_witness :
    ∃ s, handler exampleRuntime exampleEnv exampleDate examplePut = Outcome.sent s ∧
      s.headersToSign =
        ["(request-target)", "date", "host", "x-content-sha256", "content-type",
         "content-length"] ∧
      s.headers.lookup "Authorization" = some
        ("Signature version=\"1\",keyId=\"" ++ s.keyId ++
          "\",algorithm=\"rsa-sha256\",headers=\"" ++
          "(request-target) date host x-content-sha256 content-type content-length" ++
          "\",signature=\"" ++ s.signature ++ "\"") :=
  headersToSign_with_body exampleRuntime exampleEnv exampleDate examplePut
    "PUT" "/n/ns/b/bucket/o/report.json" "objectstorage" "ap-singapore-1" "example.org" "KEY"
    (JVal.arr [JVal.num "1", JVal.num "2"]) "KEY"
    rfl (by decide) (by decide) rfl rfl rfl (Or.inr (by decide))

/-- C4, as amended: for every request whose method, once upper-cased, is not one
of POST, PUT, PATCH (GET for instance), whatever the body, the header mapping has
the keys Date, Host and Authorization only, the signing string has the three
mandatory lines only, and the signed header list stays
`(request-target) date host`. -/
theorem no_digest_for_other_methods {Key : Type} (rt : Runtime Key) (env : Env) (date : String)
    (req : Option JVal) (m : String) (s : Signed)
    (hmethod : (destructure req).method = some (JVal.str m))
    (hverb : rt.toUpperCase m ∉ mutatingVerbs)
    (hs : handler rt env date req = Outcome.sent s) :
    s.headers.map Prod.fst = ["Date", "Host", "Authorization"] ∧
      (∃ pathStr, s.signingStringArray =
        ["(request-target): " ++ rt.toLowerCase m ++ " " ++ pathStr, "date: " ++ date,
         "host: " ++ s.fullHost]) ∧
      s.signingString = "\n".intercalate s.signingStringArray ∧
      s.headersToSign = ["(request-target)", "date", "host"] ∧
      s.headers.lookup "Authorization" = some
        (authorization s.keyId ["(request-target)", "date", "host"] s.signature) ∧
      s.body = none := by
  obtain ⟨raw, key, m', path, pathStr, svc, reg, dom, -, -, hm', -, -, -, -, -, rfl⟩ :=
    handler_sent_inv rt env date req s hs
  rw [hmethod] at hm'
  cases hm'
  have ht : digestTriggered rt m (destructure req).body = false := by
    simp [digestTriggered, hverb]
  refine ⟨?_, ⟨pathStr, ?_⟩, rfl, ?_, ?_, ?_⟩
  · rw [headers_of_not_triggered rt _ _ key date m pathStr _ _ ht]
    rfl
  · simp only [signWith, draft_of_not_triggered rt date m pathStr _ _ ht]
  · simp only [signWith, draft_of_not_triggered rt date m pathStr _ _ ht]
  · exact lookup_authorization_of_not_triggered rt _ _ key date m pathStr _ _ ht
  · simp only [signWith, draft_of_not_triggered rt date m pathStr _ _ ht]
    rfl

theorem no_digest_for_other_methods_witness :
    ∃ s, handler exampleRuntime exampleEnv exampleDate exampleGetWithBody = Outcome.sent s ∧
      s.headers.map Prod.fst = ["Date", "Host", "Authorization"] ∧
      s.headersToSign = ["(request-target)", "date", "host"] ∧ s.body = none :=
  have hs := handler_of_strings exampleRuntime exampleEnv exampleDate exampleGetWithBody
    "GET" "/n/ns/b/bucket" "objectstorage" "ap-singapore-1" "oraclecloud.com" "KEY"
    (some (JVal.obj [("prefix", JVal.str "a")])) "KEY" rfl (by decide) (by decide) rfl rfl
  have h := no_digest_for_other_methods exampleRuntime exampleEnv exampleDate exampleGetWithBody
    "GET" _ rfl (by decide) hs
  ⟨_, hs, h.1, h.2.2.2.1, h.2.2.2.2.2⟩

/-- C4, as stated, fails: the method `post` is not one of the strings POST, PUT,
PATCH, yet the handler upper-cases it before the comparison, so with a body the
three digest headers, the three digest lines and the three extra signed header
names are all added. -/
theorem digest_for_lowercase_post :
    "post" ∉ mutatingVerbs ∧
    ∃ s, handler exampleRuntime exampleEnv exampleDate exampleLowerPost = Outcome.sent s ∧
      s.headers.map Prod.fst =
        ["Date", "Host", "Content-Type", "Content-Length", "x-content-sha256",
         "Authorization"] ∧
      s.signingStringArray.length = 6 ∧
      s.headersToSign =
        ["(request-target)", "date", "host", "x-content-sha256", "content-type",
         "content-length"] := by
  have ht : digestTriggered exampleRuntime "post"
      (some (JVal.obj [("compartmentId", JVal.str "c")])) = true := by decide
  refine ⟨by decide, _, handler_of_strings exampleRuntime exampleEnv exampleDate exampleLowerPost
    "post" "/20220125/actions/analyzeDocument" "objectstorage" "ap-singapore-1"
    "oraclecloud.com" "KEY" (some (JVal.obj [("compartmentId", JVal.str "c")])) "KEY"
    rfl (by decide) (by decide) rfl rfl, ?_, ?_, ?_⟩
  · rw [headers_of_triggered _ _ _ _ _ _ _ _ _ ht]
    rfl
  · simp only [signWith, draft_of_triggered _ _ _ _ _ _ ht]
    rfl
  · simp only [signWith, draft_of_triggered _ _ _ _ _ _ ht]

/-- C5: for every request that reaches signing, with or without a body, the
header names listed in the `headers` field of the `Authorization` value are, in
the same order and in the same number, the names that start the lines of the
signing string: the i-th line is the i-th name, then `: `, then a value. -/
theorem headersToSign_match_lines {Key : Type} (rt : Runtime Key) (env : Env) (date : String)
    (req : Option JVal) (s : Signed) (hs : handler rt env date req = Outcome.sent s) :
    List.Forall₂ (fun name line => ∃ value, line = name ++ ": " ++ value)
        s.headersToSign s.signingStringArray ∧
      s.headersToSign.length = s.signingStringArray.length ∧
      s.signingString = "\n".intercalate s.signingStringArray ∧
      s.headers.lookup "Authorization" = some
        ("Signature version=\"1\",keyId=\"" ++ s.keyId ++
          "\",algorithm=\"rsa-sha256\",headers=\"" ++ " ".intercalate s.headersToSign ++
          "\",signature=\"" ++ s.signature ++ "\"") := by
  obtain ⟨raw, key, m, path, pathStr, svc, reg, dom, -, -, -, -, -, -, -, -, rfl⟩ :=
    handler_sent_inv rt env date req s hs
  have hl := draft_names_match_lines rt date m pathStr (svc ++ "." ++ reg ++ "." ++ dom)
    (destructure req).body
  exact ⟨hl, hl.length_eq, rfl, lookup_authorization_signWith rt _ _ key date m pathStr _ _⟩

theorem headersToSign_match_lines_witness :
    ∃ s, handler exampleRuntime exampleEnv exampleDate examplePatch = Outcome.sent s ∧
      List.Forall₂ (fun name line => ∃ value, line = name ++ ": " ++ value)
        s.headersToSign s.signingStringArray ∧
      s.headersToSign.length = s.signingStringArray.length :=
  have hs := handler_of_strings exampleRuntime exampleEnv exampleDate examplePatch
    "PATCH" "/20160918/things/7" "iaas" "us-ashburn-1" "oraclecloud.com" "KEY"
    (some (JVal.obj [("displayName", JVal.str "x")])) "KEY" rfl (by decide) (by decide) rfl rfl
  have h := headersToSign_match_lines exampleRuntime exampleEnv exampleDate examplePatch _ hs
  ⟨_, hs, h.1, h.2.1⟩

/-! ## The `Authorization` value and the header mapping -/

/-- C6: for every request that reaches signing, the `Authorization` value is
`Signature version="1",keyId="<keyId>",algorithm="rsa-sha256",headers="<signed
header names joined by spaces>",signature="<signature>"`, where the signature is
the base64 text of the RSASSA-PKCS1-v1_5/SHA-256 signature, under the key parsed
from `OCI_PRIVATE_KEY`, of the UTF-8 bytes of the signing string, and the keyId
is tenancy, user and fingerprint joined by `/`. -/
theorem authorization_value {Key : Type} (rt : Runtime Key) (env : Env) (date : String)
    (req : Option JVal) (s : Signed) (hs : handler rt env date req = Outcome.sent s) :
    (∃ raw key, env.OCI_PRIVATE_KEY = some raw ∧
        rt.privateKeyFromPem (normalizePem raw) = some key ∧
        s.signature = base64 (rt.sign key (utf8 s.signingString))) ∧
      s.keyId = envText env.OCI_TENANCY_OCID ++ "/" ++ envText env.OCI_USER_OCID ++ "/" ++
        envText env.OCI_FINGERPRINT ∧
      (∀ tenancy user fingerprint, env.OCI_TENANCY_OCID = some tenancy →
        env.OCI_USER_OCID = some user → env.OCI_FINGERPRINT = some fingerprint →
        s.keyId = tenancy ++ "/" ++ user ++ "/" ++ fingerprint) ∧
      s.headers.lookup "Authorization" = some
        ("Signature version=\"1\",keyId=\"" ++ s.keyId ++
          "\",algorithm=\"rsa-sha256\",headers=\"" ++ " ".intercalate s.headersToSign ++
          "\",signature=\"" ++ s.signature ++ "\"") := by
  obtain ⟨raw, key, m, path, pathStr, svc, reg, dom, hraw, hkey, -, -, -, -, -, -, rfl⟩ :=
    handler_sent_inv rt env date req s hs
  refine ⟨⟨raw, key, hraw, hkey, rfl⟩, rfl, ?_,
    lookup_authorization_signWith rt _ _ key date m pathStr _ _⟩
  intro t u f ht hu hf
  simp only [signWith, ht, hu, hf, envText]

theorem authorization_value_witness :
    ∃ s, handler exampleRuntime exampleEnv exampleDate exampleDelete = Outcome.sent s ∧
      s.keyId = "tenancy" ++ "/" ++ "user" ++ "/" ++ "aa:bb" ∧
      s.headers.lookup "Authorization" = some
        ("Signature version=\"1\",keyId=\"" ++ s.keyId ++
          "\",algorithm=\"rsa-sha256\",headers=\"" ++ " ".intercalate s.headersToSign ++
          "\",signature=\"" ++ s.signature ++ "\"") :=
  have hs := handler_of_strings exampleRuntime exampleEnv exampleDate exampleDelete
    "DELETE" "/n/ns/b/bucket/o/old.txt" "objectstorage" "ap-singapore-1" "oraclecloud.com" "KEY"
    none "KEY" rfl (by decide) (by decide) rfl rfl
  have h := authorization_value exampleRuntime exampleEnv exampleDate exampleDelete _ hs
  ⟨_, hs, h.2.2.1 "tenancy" "user" "aa:bb" rfl rfl rfl, h.2.2.2⟩

/-- C7, as amended: for every request that reaches signing, the header mapping
has the keys Date, Host, Content-Type, Content-Length, x-content-sha256,
Authorization in this order when a body is present (truthy) and the upper-cased
method is one of POST, PUT, PATCH, and the keys Date, Host, Authorization in this
order otherwise; there is no other key. -/
theorem header_mapping_keys {Key : Type} (rt : Runtime Key) (env : Env) (date : String)
    (req : Option JVal) (m : String) (s : Signed)
    (hmethod : (destructure req).method = some (JVal.str m))
    (hs : handler rt env date req = Outcome.sent s) :
    ((truthyU (destructure req).body = true ∧ rt.toUpperCase m ∈ mutatingVerbs) →
        s.headers.map Prod.fst =
          ["Date", "Host", "Content-Type", "Content-Length", "x-content-sha256",
           "Authorization"]) ∧
      (¬ (truthyU (destructure req).body = true ∧ rt.toUpperCase m ∈ mutatingVerbs) →
        s.headers.map Prod.fst = ["Date", "Host", "Authorization"]) := by
  obtain ⟨raw, key, m', path, pathStr, svc, reg, dom, -, -, hm', -, -, -, -, -, rfl⟩ :=
    handler_sent_inv rt env date req s hs
  rw [hmethod] at hm'
  cases hm'
  refine ⟨?_, ?_⟩
  · intro h
    have ht : digestTriggered rt m (destructure req).body = true := by
      simp [digestTriggered, h.1, h.2]
    obtain ⟨b, hb⟩ := digestTriggered_some_of_true rt m _ ht
    rw [hb] at ht ⊢
    rw [headers_of_triggered rt _ _ key date m pathStr _ b ht]
    rfl
  · intro h
    have ht : digestTriggered rt m (destructure req).body = false := by
      cases hb : truthyU (destructure req).body with
      | false => simp [digestTriggered, hb]
      | true =>
        have hv : rt.toUpperCase m ∉ mutatingVerbs := fun hv => h ⟨hb, hv⟩
        simp [digestTriggered, hv]
    rw [headers_of_not_triggered rt _ _ key date m pathStr _ _ ht]
    rfl

theorem header_mapping_keys_witness :
    ∃ s, handler exampleRuntime exampleEnv exampleDate examplePost = Outcome.sent s ∧
      s.headers.map Prod.fst =
        ["Date", "Host", "Content-Type", "Content-Length", "x-content-sha256",
         "Authorization"] :=
  have hs := handler_of_strings exampleRuntime exampleEnv exampleDate examplePost
    "POST" "/20220125/actions/analyzeDocument" "vision" "eu-frankfurt-1" "oraclecloud.com"
    "KEY" (some (JVal.obj [("name", JVal.str "café")])) "KEY" rfl (by decide) (by decide) rfl rfl
  ⟨_, hs, (header_mapping_keys exampleRuntime exampleEnv exampleDate examplePost "POST" _
    rfl hs).1 ⟨rfl, by decide⟩⟩

/-- C7, as stated, fails: the method `patch` is not one of the strings POST, PUT,
PATCH, yet with a body the header mapping contains Content-Type, Content-Length
and x-content-sha256. -/
theorem digest_headers_for_lowercase_patch :
    "patch" ∉ mutatingVerbs ∧
    ∃ s, handler exampleRuntime exampleEnv exampleDate exampleLowerPatch = Outcome.sent s ∧
      s.headers.map Prod.fst =
        ["Date", "Host", "Content-Type", "Content-Length", "x-content-sha256",
         "Authorization"] := by
  have ht : digestTriggered exampleRuntime "patch" (some (JVal.str "x")) = true := by decide
  refine ⟨by decide, _, handler_of_strings exampleRuntime exampleEnv exampleDate exampleLowerPatch
    "patch" "/20160918/things/7" "objectstorage" "ap-singapore-1" "oraclecloud.com" "KEY"
    (some (JVal.str "x")) "KEY" rfl (by decide) (by decide) rfl rfl, ?_⟩
  rw [headers_of_triggered _ _ _ _ _ _ _ _ _ ht]
  rfl

/-! ## Sensitivity of the signing string to its inputs -/

/-- C8, as amended: for every two no-body requests that the handler signs and
that have the same service and region, both methods are strings and the path and
the host have a text, the one the template literals print (the value itself when
it is a string). Two requests that agree on the lower-cased method (GET and GeT
for instance), on the text of the path, on the timestamp and on the text of the
host have the same signing string and the same signature; changing exactly one of
the text of the path, the timestamp or the text of the host changes the signing
string, and so does a change of the lower-cased method. -/
theorem signingString_separates_inputs {Key : Type} (rt : Runtime Key) (env : Env)
    (d1 d2 : String) (req1 req2 : Option JVal) (s1 s2 : Signed)
    (hb1 : truthyU (destructure req1).body = false)
    (hb2 : truthyU (destructure req2).body = false)
    (hsvc : (destructure req1).service = (destructure req2).service)
    (hreg : (destructure req1).region = (destructure req2).region)
    (hs1 : handler rt env d1 req1 = Outcome.sent s1)
    (hs2 : handler rt env d2 req2 = Outcome.sent s2) :
    ∃ m1 m2 p1 p2 dom1 dom2 : String,
      (destructure req1).method = some (JVal.str m1) ∧
      (destructure req2).method = some (JVal.str m2) ∧
      (destructure req1).path.bind JVal.toStr = some p1 ∧
      (destructure req2).path.bind JVal.toStr = some p2 ∧
      (destructure req1).domain.toStr = some dom1 ∧
      (destructure req2).domain.toStr = some dom2 ∧
      (∀ a, (destructure req1).path = some (JVal.str a) → p1 = a) ∧
      (∀ b, (destructure req2).path = some (JVal.str b) → p2 = b) ∧
      (∀ a, (destructure req1).domain = JVal.str a → dom1 = a) ∧
      (∀ b, (destructure req2).domain = JVal.str b → dom2 = b) ∧
      (rt.toLowerCase m1 = rt.toLowerCase m2 → p1 = p2 → d1 = d2 → dom1 = dom2 →
        s1.signingString = s2.signingString ∧ s1.signature = s2.signature) ∧
      (m1 = m2 → d1 = d2 → dom1 = dom2 → p1 ≠ p2 → s1.signingString ≠ s2.signingString) ∧
      (m1 = m2 → p1 = p2 → dom1 = dom2 → d1 ≠ d2 → s1.signingString ≠ s2.signingString) ∧
      (m1 = m2 → p1 = p2 → d1 = d2 → dom1 ≠ dom2 → s1.signingString ≠ s2.signingString) ∧
      (p1 = p2 → d1 = d2 → dom1 = dom2 → rt.toLowerCase m1 ≠ rt.toLowerCase m2 →
        s1.signingString ≠ s2.signingString) := by
  obtain ⟨raw1, key1, m1, path1, p1, svc1, reg1, dom1, hraw1, hkey1, hm1, hpath1, hp1, hsv1,
    hrg1, hdm1, rfl⟩ := handler_sent_inv rt env d1 req1 s1 hs1
  obtain ⟨raw2, key2, m2, path2, p2, svc2, reg2, dom2, hraw2, hkey2, hm2, hpath2, hp2, hsv2,
    hrg2, hdm2, rfl⟩ := handler_sent_inv rt env d2 req2 s2 hs2
  rw [hraw1] at hraw2
  cases hraw2
  rw [hkey1] at hkey2
  cases hkey2
  rw [hsvc, hsv2] at hsv1
  cases hsv1
  rw [hreg, hrg2] at hrg1
  cases hrg1
  have e1 := signingString_of_no_body rt
    (envText env.OCI_TENANCY_OCID ++ "/" ++ envText env.OCI_USER_OCID ++ "/" ++
      envText env.OCI_FINGERPRINT)
    (normalizePem raw1) key1 d1 m1 p1 (svc1 ++ "." ++ reg1 ++ "." ++ dom1)
    (destructure req1).body hb1
  have e2 := signingString_of_no_body rt
    (envText env.OCI_TENANCY_OCID ++ "/" ++ envText env.OCI_USER_OCID ++ "/" ++
      envText env.OCI_FINGERPRINT)
    (normalizePem raw1) key1 d2 m2 p2 (svc1 ++ "." ++ reg1 ++ "." ++ dom2)
    (destructure req2).body hb2
  refine ⟨m1, m2, p1, p2, dom1, dom2, hm1, hm2, by rw [hpath1]; exact hp1,
    by rw [hpath2]; exact hp2, hdm1, hdm2, ?_, ?_, ?_, ?_, ?_, ?_, ?_, ?_, ?_⟩
  · intro a ha
    rw [hpath1] at ha
    cases ha
    exact (Option.some.inj hp1).symm
  · intro b hb
    rw [hpath2] at hb
    cases hb
    exact (Option.some.inj hp2).symm
  · intro a ha
    rw [ha] at hdm1
    exact (Option.some.inj hdm1).symm
  · intro b hb
    rw [hb] at hdm2
    exact (Option.some.inj hdm2).symm
  · intro hm hp hd hdom
    subst hp hd hdom
    have hstr : (signWith rt
        (envText env.OCI_TENANCY_OCID ++ "/" ++ envText env.OCI_USER_OCID ++ "/" ++
          envText env.OCI_FINGERPRINT)
        (normalizePem raw1) key1 d1 m1 p1 (svc1 ++ "." ++ reg1 ++ "." ++ dom1)
        (destructure req1).body).signingString =
        (signWith rt
        (envText env.OCI_TENANCY_OCID ++ "/" ++ envText env.OCI_USER_OCID ++ "/" ++
          envText env.OCI_FINGERPRINT)
        (normalizePem raw1) key1 d1 m2 p1 (svc1 ++ "." ++ reg1 ++ "." ++ dom1)
        (destructure req2).body).signingString := by
      rw [e1, e2, hm]
    refine ⟨hstr, ?_⟩
    show base64 (rt.sign key1 (utf8 _)) = base64 (rt.sign key1 (utf8 _))
    exact congrArg (fun t => base64 (rt.sign key1 (utf8 t))) hstr
  · intro hm hd hdom hp hEq
    subst hm hd hdom
    rw [e1, e2] at hEq
    simp only [String.append_assoc, append_right_cancel_iff] at hEq
    exact hp (append_left_cancel _ _ _ hEq)
  · intro hm hp hdom hd hEq
    subst hm hp hdom
    rw [e1, e2] at hEq
    simp only [String.append_assoc, append_right_cancel_iff] at hEq
    exact hd (append_left_cancel _ _ _ hEq)
  · intro hm hp hd hdom hEq
    subst hm hp hd
    rw [e1, e2] at hEq
    simp only [String.append_assoc, append_right_cancel_iff] at hEq
    exact hdom hEq
  · intro hp hd hdom hm hEq
    subst hp hd hdom
    rw [e1, e2] at hEq
    simp only [String.append_assoc, append_right_cancel_iff] at hEq
    exact hm (append_left_cancel _ _ _ hEq)

/-- C8 on examples: changing one byte of a string path changes the signing
string, while the path `"5"` and the number 5, which have the same text, are
signed alike. -/
theorem signingString_separates_inputs_witness :
    (∃ s1 s2, handler exampleRuntime exampleEnv exampleDate exampleGet = Outcome.sent s1 ∧
      handler exampleRuntime exampleEnv exampleDate exampleGetOther = Outcome.sent s2 ∧
      s1.signingString ≠ s2.signingString) ∧
    (∃ s1 s2, handler exampleRuntime exampleEnv exampleDate examplePathText = Outcome.sent s1 ∧
      handler exampleRuntime exampleEnv exampleDate examplePathNumber = Outcome.sent s2 ∧
      s1.signingString = s2.signingString ∧ s1.signature = s2.signature) := by
  constructor
  · obtain ⟨m1, m2, p1, p2, dom1, dom2, hm1, hm2, -, -, -, -, hp1, hp2, hd1, hd2, -, hpath, -⟩ :=
      signingString_separates_inputs exampleRuntime exampleEnv exampleDate exampleDate
        exampleGet exampleGetOther _ _ rfl rfl rfl rfl rfl rfl
    have e1 : some (JVal.str "GET") = some (JVal.str m1) := hm1
    have e2 : some (JVal.str "GET") = some (JVal.str m2) := hm2
    cases e1
    cases e2
    cases hp1 "/n/ns/b/bucket" rfl
    cases hp2 "/n/ns/b/bucke7" rfl
    cases hd1 "oraclecloud.com" rfl
    cases hd2 "oraclecloud.com" rfl
    exact ⟨_, _, rfl, rfl, hpath rfl rfl rfl (by decide)⟩
  · obtain ⟨m1, m2, p1, p2, dom1, dom2, hm1, hm2, -, hq2, -, -, hp1, -, hd1, hd2, hsame, -⟩ :=
      signingString_separates_inputs exampleRuntime exampleEnv exampleDate exampleDate
        examplePathText examplePathNumber _ _ rfl rfl rfl rfl rfl rfl
    have e1 : some (JVal.str "GET") = some (JVal.str m1) := hm1
    have e2 : some (JVal.str "GET") = some (JVal.str m2) := hm2
    have e3 : some "5" = some p2 := hq2
    cases e1
    cases e2
    cases e3
    cases hp1 "5" rfl
    cases hd1 "oraclecloud.com" rfl
    cases hd2 "oraclecloud.com" rfl
    exact ⟨_, _, rfl, rfl, hsame rfl rfl rfl rfl⟩

/-- C8, as stated, fails: the methods `GET` and `GeT` differ in one byte, yet the
two requests have the same signing string, because the method is lower-cased in
the `(request-target)` line, and therefore the same signature. -/
theorem same_signature_for_other_case :
    "GET" ≠ "GeT" ∧
    ∃ s1 s2, handler exampleRuntime exampleEnv exampleDate exampleGet = Outcome.sent s1 ∧
      handler exampleRuntime exampleEnv exampleDate exampleGetMixedCase = Outcome.sent s2 ∧
      s1.signingString = s2.signingString ∧ s1.signature = s2.signature := by
  have hs1 := handler_of_strings exampleRuntime exampleEnv exampleDate exampleGet
    "GET" "/n/ns/b/bucket" "objectstorage" "ap-singapore-1" "oraclecloud.com" "KEY" none "KEY"
    rfl (by decide) (by decide) rfl rfl
  have hs2 := handler_of_strings exampleRuntime exampleEnv exampleDate exampleGetMixedCase
    "GeT" "/n/ns/b/bucket" "objectstorage" "ap-singapore-1" "oraclecloud.com" "KEY" none "KEY"
    rfl (by decide) (by decide) rfl rfl
  have hl : exampleRuntime.toLowerCase "GET" = exampleRuntime.toLowerCase "GeT" := by decide
  have hstr : (signWith exampleRuntime
      (envText exampleEnv.OCI_TENANCY_OCID ++ "/" ++ envText exampleEnv.OCI_USER_OCID ++ "/" ++
        envText exampleEnv.OCI_FINGERPRINT)
      (normalizePem "KEY") "KEY" exampleDate "GET" "/n/ns/b/bucket"
      ("objectstorage" ++ "." ++ "ap-singapore-1" ++ "." ++ "oraclecloud.com")
      none).signingString =
      (signWith exampleRuntime
      (envText exampleEnv.OCI_TENANCY_OCID ++ "/" ++ envText exampleEnv.OCI_USER_OCID ++ "/" ++
        envText exampleEnv.OCI_FINGERPRINT)
      (normalizePem "KEY") "KEY" exampleDate "GeT" "/n/ns/b/bucket"
      ("objectstorage" ++ "." ++ "ap-singapore-1" ++ "." ++ "oraclecloud.com")
      none).signingString := by
    rw [signingString_of_no_body _ _ _ _ _ _ _ _ none rfl,
      signingString_of_no_body _ _ _ _ _ _ _ _ none rfl, hl]
  exact ⟨by decide, _, _, hs1, hs2, hstr,
    congrArg (fun t => base64 (exampleRuntime.sign "KEY" (utf8 t))) hstr⟩

/-! ## Validation and identity material -/

/-- C9: for every request in which `method` or `path` is missing or empty, the
handler answers HTTP 400 with `Missing required fields: method and path`, so no
signing string, signature or outbound request is produced; and for every request
with a non-empty `method` and a non-empty `path` the handler does not answer with
this validation error. In general the validation error is the answer exactly
when `method` or `path` is falsy. -/
theorem validation_of_method_and_path {Key : Type} (rt : Runtime Key) (env : Env)
    (date : String) (req : Option JVal) :
    ((getProp req "method" = none ∨ getProp req "method" = some (JVal.str "") ∨
        getProp req "path" = none ∨ getProp req "path" = some (JVal.str "")) →
      handler rt env date req =
        Outcome.badRequest "Missing required fields: method and path") ∧
    (∀ m p : String, getProp req "method" = some (JVal.str m) → m ≠ "" →
      getProp req "path" = some (JVal.str p) → p ≠ "" →
      ∀ error, handler rt env date req ≠ Outcome.badRequest error) ∧
    ((∃ error, handler rt env date req = Outcome.badRequest error) ↔
      (truthyU (getProp req "method") = false ∨ truthyU (getProp req "path") = false)) := by
  refine ⟨?_, ?_, ?_⟩
  · intro h
    have hfalsy : (!truthyU (destructure req).method || !truthyU (destructure req).path) = true := by
      rcases h with h | h | h | h <;> simp [destructure, h, truthyU, JVal.truthy]
    simp only [handler, hfalsy, if_true]
  · intro m p hm hm0 hp hp0 error
    have htruthy :
        (!truthyU (destructure req).method || !truthyU (destructure req).path) = false := by
      simp [destructure, hm, hp, truthyU, JVal.truthy, hm0, hp0]
    simp only [handler, htruthy]
    cases signAndCall rt env date (destructure req) <;> simp
  · cases hc : (!truthyU (destructure req).method || !truthyU (destructure req).path) with
    | true =>
      have hc' := hc
      simp only [destructure, Bool.or_eq_true, Bool.not_eq_true'] at hc'
      simp only [handler, hc, if_true]
      exact ⟨fun _ => hc', fun _ => ⟨_, rfl⟩⟩
    | false =>
      have hc' := hc
      simp only [destructure, Bool.or_eq_false_iff, Bool.not_eq_false'] at hc'
      simp only [handler, hc]
      constructor
      · rintro ⟨error, he⟩
        cases hsc : signAndCall rt env date (destructure req) <;> simp [hsc] at he
      · rintro (h | h)
        · rw [hc'.1] at h
          cases h
        · rw [hc'.2] at h
          cases h

theorem validation_of_method_and_path_witness :
    handler exampleRuntime exampleEnv exampleDate exampleNoMethod =
        Outcome.badRequest "Missing required fields: method and path" ∧
      ∀ error, handler exampleRuntime exampleEnv exampleDate exampleGet ≠
        Outcome.badRequest error :=
  ⟨(validation_of_method_and_path exampleRuntime exampleEnv exampleDate exampleNoMethod).1
      (Or.inl rfl),
    (validation_of_method_and_path exampleRuntime exampleEnv exampleDate exampleGet).2.1
      "GET" "/n/ns/b/bucket" rfl (by decide) rfl (by decide)⟩

/-- C10, as amended: when `OCI_PRIVATE_KEY` is absent the handler never reaches
`fetch` and produces no `Authorization` value: it answers with the validation
error or with the HTTP 500 of the `catch` block. The three keyId components are
not checked: when the handler signs, the keyId is the three variables joined by
`/`, an absent one printed as the text `undefined`. -/
theorem identity_material {Key : Type} (rt : Runtime Key) (env : Env) (date : String)
    (req : Option JVal) :
    (env.OCI_PRIVATE_KEY = none →
      handler rt env date req =
          Outcome.badRequest "Missing required fields: method and path" ∨
        handler rt env date req = Outcome.serverError) ∧
    (∀ s, handler rt env date req = Outcome.sent s →
      env.OCI_PRIVATE_KEY ≠ none ∧
      s.keyId = envText env.OCI_TENANCY_OCID ++ "/" ++ envText env.OCI_USER_OCID ++ "/" ++
        envText env.OCI_FINGERPRINT) := by
  refine ⟨?_, ?_⟩
  · intro h
    unfold handler
    simp only
    split
    · exact Or.inl rfl
    · right
      simp [signAndCall, h]
  · intro s hs
    obtain ⟨raw, key, m, path, pathStr, svc, reg, dom, hraw, -, -, -, -, -, -, -, rfl⟩ :=
      handler_sent_inv rt env date req s hs
    exact ⟨by simp [hraw], rfl⟩

theorem identity_material_witness :
    (handler exampleRuntime exampleEnvNoKey exampleDate exampleGet =
        Outcome.badRequest "Missing required fields: method and path" ∨
      handler exampleRuntime exampleEnvNoKey exampleDate exampleGet = Outcome.serverError) ∧
    ∃ s, handler exampleRuntime exampleEnv exampleDate exampleGet = Outcome.sent s ∧
      exampleEnv.OCI_PRIVATE_KEY ≠ none ∧
      s.keyId = envText exampleEnv.OCI_TENANCY_OCID ++ "/" ++
        envText exampleEnv.OCI_USER_OCID ++ "/" ++ envText exampleEnv.OCI_FINGERPRINT :=
  have hs := handler_of_strings exampleRuntime exampleEnv exampleDate exampleGet
    "GET" "/n/ns/b/bucket" "objectstorage" "ap-singapore-1" "oraclecloud.com" "KEY" none "KEY"
    rfl (by decide) (by decide) rfl rfl
  ⟨(identity_material exampleRuntime exampleEnvNoKey exampleDate exampleGet).1 rfl,
    _, hs, (identity_material exampleRuntime exampleEnv exampleDate exampleGet).2 _ hs⟩

/-- C10, as stated, fails: with `OCI_TENANCY_OCID` unset the handler signs all the
same, under the keyId `undefined/user/aa:bb`, and sends an `Authorization` value
that carries it. -/
theorem signs_without_tenancy :
    exampleEnvNoTenancy.OCI_TENANCY_OCID = none ∧
    ∃ s, handler exampleRuntime exampleEnvNoTenancy exampleDate exampleGet = Outcome.sent s ∧
      s.keyId = "undefined/user/aa:bb" ∧
      s.headers.lookup "Authorization" = some
        ("Signature version=\"1\",keyId=\"undefined/user/aa:bb\"" ++
          ",algorithm=\"rsa-sha256\",headers=\"(request-target) date host\",signature=\"" ++
          s.signature ++ "\"") := by
  refine ⟨rfl, _, handler_of_strings exampleRuntime exampleEnvNoTenancy exampleDate exampleGet
    "GET" "/n/ns/b/bucket" "objectstorage" "ap-singapore-1" "oraclecloud.com" "KEY" none "KEY"
    rfl (by decide) (by decide) rfl rfl, by decide, ?_⟩
  rw [lookup_authorization_of_not_triggered _ _ _ _ _ _ _ _ _ (by decide)]
  simp [authorization, intercalate_three, envText, exampleEnvNoTenancy]


/-! ## The transmitted body and the host -/

/-- The text `JSON.stringify` is empty only for a number whose rendering is empty,
which no number has. -/
theorem stringify_eq_empty (b : JVal) (h : b.stringify = "") : b = JVal.num "" := by
  cases b with
  | null => exact absurd h (by decide)
  | bool v => cases v <;> exact absurd h (by decide)
  | num r =>
    simp only [JVal.stringify] at h
    split at h
    · exact absurd h (by decide)
    · rw [h]
  | str t =>
    have hd := congrArg String.data h
    simp [JVal.stringify, JVal.quote] at hd
  | arr xs =>
    have hd := congrArg String.data h
    simp [JVal.stringify] at hd
  | obj kvs =>
    have hd := congrArg String.data h
    simp [JVal.stringify] at hd

/-- The body handed to `fetch` when the condition of line 41 holds. -/
theorem body_of_triggered {Key : Type} (rt : Runtime Key) (keyId pem : String) (key : Key)
    (date method pathStr fullHost : String) (b : JVal)
    (h : digestTriggered rt method (some b) = true) (hb : b ≠ JVal.num "") :
    (signWith rt keyId pem key date method pathStr fullHost (some b)).body =
      some b.stringify := by
  have hne : b.stringify ≠ "" := fun he => hb (stringify_eq_empty b he)
  simp [signWith, draft_of_triggered rt date method pathStr fullHost b h, hne]

/-- C11: for every request where digesting is triggered, the body handed to
`fetch` is the very text that was digested: the `x-content-sha256` value, in the
header and in the signing string, is the base64 SHA-256 of the UTF-8 bytes of the
transmitted body, and the `Content-Length` value, in the header and in the
signing string, is the number of those bytes; when digesting is not triggered no
body is transmitted. -/
theorem transmitted_body_is_digested {Key : Type} (rt : Runtime Key) (env : Env)
    (date : String) (req : Option JVal) (m : String) (s : Signed)
    (hmethod : (destructure req).method = some (JVal.str m))
    (hs : handler rt env date req = Outcome.sent s) :
    (∀ b, (destructure req).body = some b → digestTriggered rt m (some b) = true →
      b ≠ JVal.num "" →
      ∃ transmitted, s.body = some transmitted ∧ transmitted = b.stringify ∧
        s.headers.lookup "x-content-sha256" =
          some (base64 (rt.sha256 (utf8 transmitted))) ∧
        "x-content-sha256: " ++ base64 (rt.sha256 (utf8 transmitted)) ∈
          s.signingStringArray ∧
        s.headers.lookup "Content-Length" = some (toString (utf8 transmitted).length) ∧
        "content-length: " ++ toString (utf8 transmitted).length ∈ s.signingStringArray) ∧
    (digestTriggered rt m (destructure req).body = false → s.body = none) := by
  obtain ⟨raw, key, m', path, pathStr, svc, reg, dom, -, -, hm', -, -, -, -, -, rfl⟩ :=
    handler_sent_inv rt env date req s hs
  rw [hmethod] at hm'
  cases hm'
  refine ⟨?_, ?_⟩
  · intro b hb ht hne
    rw [hb]
    refine ⟨b.stringify, body_of_triggered rt _ _ key date m pathStr _ b ht hne, rfl, ?_, ?_,
      ?_, ?_⟩
    · rw [headers_of_triggered rt _ _ key date m pathStr _ b ht]
      simp [List.lookup, contentDigest_eq]
    · simp [signWith, draft_of_triggered rt date m pathStr _ b ht, contentDigest_eq]
    · rw [headers_of_triggered rt _ _ key date m pathStr _ b ht]
      simp [List.lookup, utf8_length]
    · simp [signWith, draft_of_triggered rt date m pathStr _ b ht, utf8_length]
  · intro ht
    simp only [signWith, draft_of_not_triggered rt date m pathStr _ _ ht]
    rfl

theorem transmitted_body_is_digested_witness :
    ∃ s transmitted, handler exampleRuntime exampleEnv exampleDate examplePost = Outcome.sent s ∧
      s.body = some transmitted ∧
      transmitted = (JVal.obj [("name", JVal.str "café")]).stringify ∧
      s.headers.lookup "x-content-sha256" =
        some (base64 (exampleRuntime.sha256 (utf8 transmitted))) ∧
      s.headers.lookup "Content-Length" = some (toString (utf8 transmitted).length) :=
  have hs := handler_of_strings exampleRuntime exampleEnv exampleDate examplePost
    "POST" "/20220125/actions/analyzeDocument" "vision" "eu-frankfurt-1" "oraclecloud.com"
    "KEY" (some (JVal.obj [("name", JVal.str "café")])) "KEY" rfl (by decide) (by decide) rfl rfl
  have h := (transmitted_body_is_digested exampleRuntime exampleEnv exampleDate examplePost
    "POST" _ rfl hs).1 (JVal.obj [("name", JVal.str "café")]) rfl (by decide)
    (fun he => JVal.noConfusion he)
  h.elim fun t ht => ⟨_, t, hs, ht.1, ht.2.1, ht.2.2.1, ht.2.2.2.2.1⟩


/-- The `Host` entry and the `host` line of a signed request. -/
theorem host_of_signWith {Key : Type} (rt : Runtime Key) (keyId pem : String) (key : Key)
    (date method pathStr fullHost : String) (body : Option JVal) :
    (signWith rt keyId pem key date method pathStr fullHost body).headers.lookup "Host" =
        some fullHost ∧
      (signWith rt keyId pem key date method pathStr fullHost body).signingStringArray[2]? =
        some ("host: " ++ fullHost) := by
  cases ht : digestTriggered rt method body with
  | false =>
    rw [headers_of_not_triggered rt keyId pem key date method pathStr fullHost body ht]
    simp [signWith, draft_of_not_triggered rt date method pathStr fullHost body ht, List.lookup]
  | true =>
    obtain ⟨b, rfl⟩ := digestTriggered_some_of_true rt method body ht
    rw [headers_of_triggered rt keyId pem key date method pathStr fullHost b ht]
    simp [signWith, draft_of_triggered rt date method pathStr fullHost b ht, List.lookup]

/-- A text with a non-empty text put before it is another text. -/
theorem prefixed_ne (a b d : String) : a ++ "." ++ b ++ "." ++ d ≠ d := by
  intro h
  have hl := congrArg String.length h
  simp only [String.length_append] at hl
  have h1 : ".".length = 1 := by decide
  omega

/-- C12, as amended: the value signed in the `host:` line and sent as the `Host`
header is fullHost, and fullHost is `<service>.<region>.<host>`, the host supplied
by the caller (or its default) with the service and the region put before it; it
never equals the host supplied by the caller. -/
theorem fullHost_is_service_region_host {Key : Type} (rt : Runtime Key) (env : Env)
    (date : String) (req : Option JVal) (s : Signed)
    (hs : handler rt env date req = Outcome.sent s) :
    s.signingStringArray[2]? = some ("host: " ++ s.fullHost) ∧
      s.headers.lookup "Host" = some s.fullHost ∧
      ∃ service region host,
        ((getProp req "service").getD (JVal.str "objectstorage")).toStr = some service ∧
        ((getProp req "region").getD (JVal.str "ap-singapore-1")).toStr = some region ∧
        ((getProp req "host").getD (JVal.str "oraclecloud.com")).toStr = some host ∧
        s.fullHost = service ++ "." ++ region ++ "." ++ host ∧ s.fullHost ≠ host := by
  obtain ⟨raw, key, m, path, pathStr, svc, reg, dom, -, -, -, -, -, hsvc, hreg, hdom, rfl⟩ :=
    handler_sent_inv rt env date req s hs
  have hh := host_of_signWith rt
    (envText env.OCI_TENANCY_OCID ++ "/" ++ envText env.OCI_USER_OCID ++ "/" ++
      envText env.OCI_FINGERPRINT)
    (normalizePem raw) key date m pathStr (svc ++ "." ++ reg ++ "." ++ dom)
    (destructure req).body
  exact ⟨hh.2, hh.1, svc, reg, dom, hsvc, hreg, hdom, rfl, prefixed_ne svc reg dom⟩

theorem fullHost_is_service_region_host_witness :
    ∃ s, handler exampleRuntime exampleEnv exampleDate examplePatch = Outcome.sent s ∧
      s.signingStringArray[2]? = some ("host: " ++ s.fullHost) ∧
      s.headers.lookup "Host" = some s.fullHost :=
  have hs := handler_of_strings exampleRuntime exampleEnv exampleDate examplePatch
    "PATCH" "/20160918/things/7" "iaas" "us-ashburn-1" "oraclecloud.com" "KEY"
    (some (JVal.obj [("displayName", JVal.str "x")])) "KEY" rfl (by decide) (by decide) rfl rfl
  have h := fullHost_is_service_region_host exampleRuntime exampleEnv exampleDate examplePatch
    _ hs
  ⟨_, hs, h.1, h.2.1⟩

/-- C12, as stated, fails: the caller supplies the host `example.org`, and the
value signed and sent is `objectstorage.ap-singapore-1.example.org`. -/
theorem fullHost_differs_from_supplied_host :
    getProp examplePut "host" = some (JVal.str "example.org") ∧
    ∃ s, handler exampleRuntime exampleEnv exampleDate examplePut = Outcome.sent s ∧
      s.fullHost = "objectstorage.ap-singapore-1.example.org" ∧
      s.headers.lookup "Host" = some "objectstorage.ap-singapore-1.example.org" ∧
      s.fullHost ≠ "example.org" := by
  refine ⟨rfl, _, handler_of_strings exampleRuntime exampleEnv exampleDate examplePut
    "PUT" "/n/ns/b/bucket/o/report.json" "objectstorage" "ap-singapore-1" "example.org" "KEY"
    (some (JVal.arr [JVal.num "1", JVal.num "2"])) "KEY" rfl (by decide) (by decide) rfl rfl,
    by decide, ?_, by decide⟩
  rw [(host_of_signWith _ _ _ _ _ _ _ _ _).1]
  decide


/-! ## Lemmas on numbers and keys -/

/-- A sequence of computations ends with a value exactly when each step does. -/
theorem Js.bind_eq_ok {α β : Type} (a : Js α) (f : α → Js β) (v : β) :
    a.bind f = Js.ok v ↔ ∃ u, a = Js.ok u ∧ f u = Js.ok v := by
  cases a with
  | ok u => simp [Js.bind]
  | throws => simp [Js.bind]
  | unmodelled => simp [Js.bind]

/-- The comparison by cross multiplication is the comparison of the values. -/
theorem Fraction.le_iff_toRat (a b : Fraction) : a.le b ↔ a.toRat ≤ b.toRat := by
  have ha : (0 : ℚ) < a.den := by exact_mod_cast a.den_pos
  have hb : (0 : ℚ) < b.den := by exact_mod_cast b.den_pos
  unfold Fraction.le Fraction.toRat
  rw [div_le_div_iff₀ ha hb]
  constructor
  · intro h
    exact_mod_cast h
  · intro h
    exact_mod_cast h

/-- The integer of `toFixed(2)` is the magnitude times one hundred, rounded to the
nearest integer, halves upwards. -/
theorem hundredths_eq_floor (n d : Nat) (hd : 0 < d) :
    (hundredths n d : ℤ) = ⌊100 * ((n : ℚ) / (d : ℚ)) + 1 / 2⌋ := by
  have hd' : (0 : ℚ) < d := by exact_mod_cast hd
  have h : 100 * ((n : ℚ) / (d : ℚ)) + 1 / 2 = ((200 * n + d : ℕ) : ℚ) / ((2 * d : ℕ) : ℚ) := by
    push_cast
    field_simp
    ring
  rw [h, Rat.floor_natCast_div_natCast]
  simp [hundredths]

/-- Reading back the key of at most one hundred hundredths gives the hundredths. -/
theorem parseFloat_fixed2 (n : Nat) (h : n ≤ 100) :
    (parseFloat (fixed2 n)).num = n ∧ (parseFloat (fixed2 n)).den = 100 := by
  interval_cases n <;> decide

/-- Keys of at most one hundred hundredths are equal only for equal hundredths. -/
theorem fixed2_inj (n m : Nat) (hn : n ≤ 100) (hm : m ≤ 100) (h : fixed2 n = fixed2 m) :
    n = m := by
  have h1 := (parseFloat_fixed2 n hn).1
  have h2 := (parseFloat_fixed2 m hm).1
  rw [h] at h1
  have := h1.symm.trans h2
  exact_mod_cast this


/-! ## Lemmas on the grouping -/

/-- The row of a key after one more entry was pushed. -/
theorem lookup_push (g : List (String × List Entry)) (k k' : String) (e : Entry) :
    ((push g k e).lookup k').getD [] =
      if k' = k then (g.lookup k).getD [] ++ [e] else (g.lookup k').getD [] := by
  induction g with
  | nil =>
    by_cases h : k' = k
    · subst h
      simp [push, List.lookup]
    · have hb : (k' == k) = false := by simpa using h
      simp [push, List.lookup, h, hb]
  | cons p g ih =>
    obtain ⟨kp, es⟩ := p
    by_cases hk : kp = k
    · subst hk
      by_cases h : k' = kp
      · subst h
        simp [push, List.lookup]
      · have hb : (k' == kp) = false := by simpa using h
        simp [push, List.lookup, h, hb]
    · have hkb : (k == kp) = false := by simpa using fun h : k = kp => hk h.symm
      by_cases h : k' = kp
      · subst h
        have hne : ¬ k' = k := hk
        simp [push, List.lookup, hk, hne]
      · have hb : (k' == kp) = false := by simpa using h
        simp only [push, hk, if_false, List.lookup, hb, hkb]
        exact ih


/-- The keys after one more entry was pushed: a new key goes last. -/
theorem keys_push (g : List (String × List Entry)) (k : String) (e : Entry) :
    (push g k e).map Prod.fst =
      if k ∈ g.map Prod.fst then g.map Prod.fst else g.map Prod.fst ++ [k] := by
  induction g with
  | nil => simp [push]
  | cons p g ih =>
    obtain ⟨kp, es⟩ := p
    by_cases hk : kp = k
    · subst hk
      simp [push]
    · have hk' : ¬ k = kp := fun h => hk h.symm
      simp only [push, hk, if_false, List.map_cons, List.mem_cons, hk', false_or, ih]
      split <;> simp

/-- Pushing keeps the keys distinct. -/
theorem nodup_keys_push (g : List (String × List Entry)) (k : String) (e : Entry)
    (h : (g.map Prod.fst).Nodup) : ((push g k e).map Prod.fst).Nodup := by
  rw [keys_push]
  split
  · exact h
  · rename_i hk
    exact List.Nodup.append h (List.nodup_singleton k) (by simpa using hk)

/-- The groups built from a start `g` by the loop over the words. -/
theorem foldl_push_spec (l : List (String × Entry)) (g : List (String × List Entry))
    (hg : (g.map Prod.fst).Nodup) :
    ((l.foldl (fun groups ke => push groups ke.1 ke.2) g).map Prod.fst).Nodup ∧
    (∀ k, k ∈ (l.foldl (fun groups ke => push groups ke.1 ke.2) g).map Prod.fst ↔
      k ∈ g.map Prod.fst ∨ k ∈ l.map Prod.fst) ∧
    (∀ k, ((l.foldl (fun groups ke => push groups ke.1 ke.2) g).lookup k).getD [] =
      (g.lookup k).getD [] ++ (l.filter (fun ke => ke.1 = k)).map Prod.snd) := by
  induction l generalizing g with
  | nil => simp [hg]
  | cons ke l ih =>
    obtain ⟨h1, h2, h3⟩ := ih (push g ke.1 ke.2) (nodup_keys_push g ke.1 ke.2 hg)
    refine ⟨h1, ?_, ?_⟩
    · intro k
      rw [List.foldl_cons, h2 k, keys_push]
      by_cases hm : ke.1 ∈ g.map Prod.fst
      · simp only [hm, if_true, List.map_cons, List.mem_cons]
        constructor
        · rintro (h | h)
          · exact Or.inl h
          · exact Or.inr (Or.inr h)
        · rintro (h | h | h)
          · exact Or.inl h
          · exact Or.inl (h ▸ hm)
          · exact Or.inr h
      · simp only [hm, if_false, List.map_cons, List.mem_cons, List.mem_append,
          List.mem_singleton]
        tauto
    · intro k
      rw [List.foldl_cons, h3 k, lookup_push]
      by_cases hk : k = ke.1
      · subst hk
        simp [List.filter_cons]
      · have hk' : ¬ ke.1 = k := fun h => hk h.symm
        simp [List.filter_cons, hk, hk']

/-- The object `wordGroups`: its keys are distinct, they are the buckets of the
words, and the row of a key holds the entries of the words with this bucket, in
input order. -/
theorem groupWords_spec (keyed : List (String × Entry)) :
    ((groupWords keyed).map Prod.fst).Nodup ∧
    (∀ k, k ∈ (groupWords keyed).map Prod.fst ↔ k ∈ keyed.map Prod.fst) ∧
    (∀ k, ((groupWords keyed).lookup k).getD [] =
      (keyed.filter (fun ke => ke.1 = k)).map Prod.snd) := by
  obtain ⟨h1, h2, h3⟩ := foldl_push_spec keyed [] (by simp)
  refine ⟨h1, ?_, ?_⟩
  · intro k
    simpa using h2 k
  · intro k
    simpa using h3 k


/-- The loop of lines 132 to 136 makes the lines of the sorted rows. -/
theorem rowLines_eq (g : List (String × List Entry)) (keys : List String) :
    rowLines g keys = linesOfRows (keys.map fun yKey => sortRow ((g.lookup yKey).getD [])) := by
  induction keys with
  | nil => rfl
  | cons k keys ih => simp only [rowLines, List.map_cons, linesOfRows, ih]

/-- The lines of a page are the lines of its rows. -/
theorem pageLines_eq (value : String → Option Fraction) (page : JVal) :
    pageLines value page = (pageKeyed value page).bind fun keyed => linesOfRows (pageRows keyed) := by
  unfold pageLines pageKeyed
  split
  · rfl
  · split
    · rfl
    · rfl
    · simp only [rowLines_eq, pageRows]
    · rfl

/-- The lines of rows put one after the other. -/
theorem linesOfRows_append (a b : List (List Entry)) (la lb : List String)
    (ha : linesOfRows a = Js.ok la) (hb : linesOfRows b = Js.ok lb) :
    linesOfRows (a ++ b) = Js.ok (la ++ lb) := by
  induction a generalizing la with
  | nil =>
    simp only [linesOfRows, Js.ok.injEq] at ha
    subst ha
    simpa using hb
  | cons row a ih =>
    simp only [linesOfRows, Js.bind_eq_ok] at ha
    obtain ⟨ts, hts, ls, hls, hl⟩ := ha
    simp only [Js.ok.injEq] at hl
    subst hl
    have hrest := ih ls hls
    show linesOfRows (row :: (a ++ b)) = Js.ok (" ".intercalate ts :: (ls ++ lb))
    simp only [linesOfRows, hts, Js.bind, hrest]

/-- Rows of distinct keys that cover the buckets hold every entry once. -/
theorem flatMap_filter_perm (ks : List String) (l : List (String × Entry)) (hks : ks.Nodup)
    (hl : ∀ ke ∈ l, ke.1 ∈ ks) :
    (ks.flatMap fun k => (l.filter (fun ke => ke.1 = k)).map Prod.snd).Perm (l.map Prod.snd) := by
  induction ks generalizing l with
  | nil =>
    cases l with
    | nil => simp
    | cons ke l => exact absurd (hl ke (List.mem_cons_self _ _)) (List.not_mem_nil _)
  | cons k ks ih =>
    have hk : k ∉ ks := (List.nodup_cons.mp hks).1
    have hrest : (ks.flatMap fun k' => (l.filter (fun ke => ke.1 = k')).map Prod.snd) =
        ks.flatMap fun k' =>
          ((l.filter (fun ke => ¬ ke.1 = k)).filter (fun ke => ke.1 = k')).map Prod.snd := by
      apply List.flatMap_congr
      intro k' hk'
      have hne : k' ≠ k := fun h => hk (h ▸ hk')
      rw [List.filter_filter]
      congr 1
      apply List.filter_congr
      intro ke _
      by_cases h : ke.1 = k'
      · simp [h, hne]
      · simp [h]
    rw [List.flatMap_cons, hrest]
    have hih := ih (l.filter (fun ke => ¬ ke.1 = k)) (List.nodup_cons.mp hks).2 (by
      intro ke hke
      rw [List.mem_filter] at hke
      have := hl ke hke.1
      rcases List.mem_cons.mp this with h | h
      · simp [h] at hke
      · exact h)
    refine (List.Perm.append_left _ hih).trans ?_
    rw [← List.map_append]
    apply List.Perm.map
    have := List.filter_append_perm (fun ke : String × Entry => decide (ke.1 = k)) l
    simpa using this


/-- The rows of a page hold every entry of the page once. -/
theorem pageRows_flatten_perm (keyed : List (String × Entry)) :
    (pageRows keyed).flatten.Perm (keyed.map Prod.snd) := by
  obtain ⟨hnd, hmem, hrow⟩ := groupWords_spec keyed
  unfold pageRows
  rw [← List.flatMap_def]
  have hsort : (sortKeys ((groupWords keyed).map Prod.fst)).Perm ((groupWords keyed).map Prod.fst) :=
    List.perm_insertionSort _ _
  refine (List.Perm.flatMap_right _ hsort).trans ?_
  refine (List.Perm.flatMap_left _ (g := fun k =>
    (keyed.filter (fun ke => ke.1 = k)).map Prod.snd) ?_).trans ?_
  · intro k _
    rw [hrow k]
    exact List.perm_insertionSort _ _
  · exact flatMap_filter_perm _ keyed hnd (fun ke hke =>
      (hmem ke.1).mpr (List.mem_map_of_mem Prod.fst hke))

/-- Every row of a page is the stable sort by `x` of the entries of one bucket of
the page, taken in input order, and there is one row for each bucket. -/
theorem mem_pageRows (keyed : List (String × Entry)) (row : List Entry) :
    row ∈ pageRows keyed ↔
      ∃ k ∈ keyed.map Prod.fst,
        row = sortRow ((keyed.filter (fun ke => ke.1 = k)).map Prod.snd) := by
  obtain ⟨-, hmem, hrow⟩ := groupWords_spec keyed
  unfold pageRows
  rw [List.mem_map]
  constructor
  · rintro ⟨k, hk, rfl⟩
    have hk' : k ∈ (groupWords keyed).map Prod.fst := (List.mem_insertionSort _).mp hk
    exact ⟨k, (hmem k).mp hk', by rw [hrow k]⟩
  · rintro ⟨k, hk, rfl⟩
    exact ⟨k, (List.mem_insertionSort _).mpr ((hmem k).mpr hk), by rw [hrow k]⟩

/-- No row of a page is empty. -/
theorem pageRows_ne_nil (keyed : List (String × Entry)) (row : List Entry)
    (h : row ∈ pageRows keyed) : row ≠ [] := by
  obtain ⟨k, hk, rfl⟩ := (mem_pageRows keyed row).mp h
  obtain ⟨ke, hke, hkey⟩ := List.mem_map.mp hk
  intro hnil
  have hlen := congrArg List.length hnil
  simp only [sortRow, List.length_insertionSort, List.length_map, List.length_nil] at hlen
  have hmem : ke ∈ keyed.filter (fun ke => ke.1 = k) := by
    rw [List.mem_filter]
    exact ⟨hke, by simpa using hkey⟩
  rw [List.length_eq_zero] at hlen
  rw [hlen] at hmem
  exact List.not_mem_nil _ hmem

/-- The entries of the words of a page carry the `text` of the words. -/
theorem wordEntries_text (value : String → Option Fraction) (words : List JVal)
    (keyed : List (String × Entry)) (h : wordEntries value words = Js.ok keyed) :
    keyed.map (fun ke => ke.2.text) = words.map (fun w => getProp (some w) "text") := by
  induction words generalizing keyed with
  | nil =>
    simp only [wordEntries, Js.ok.injEq] at h
    subst h
    rfl
  | cons w words ih =>
    simp only [wordEntries, Js.bind_eq_ok] at h
    obtain ⟨e, he, es, hes, hk⟩ := h
    simp only [Js.ok.injEq] at hk
    subst hk
    have hw : e.2.text = getProp (some w) "text" := by
      unfold wordEntry at he
      split at he
      · exact absurd he (by simp)
      · simp only [Js.bind_eq_ok] at he
        obtain ⟨y, -, he⟩ := he
        split at he
        · exact absurd he (by simp)
        · simp only [Js.bind_eq_ok] at he
          obtain ⟨x, -, he⟩ := he
          simp only [Js.ok.injEq] at he
          rw [← he]
    simp only [List.map_cons, hw, ih es hes]

/-- The entries of a page carry the `text` of the words of the page. -/
theorem pageKeyed_text (value : String → Option Fraction) (page : JVal)
    (keyed : List (String × Entry)) (h : pageKeyed value page = Js.ok keyed) :
    keyed.map (fun ke => ke.2.text) =
      (pageWords page).map (fun w => getProp (some w) "text") := by
  unfold pageKeyed at h
  unfold pageWords
  split at h
  · exact absurd h (by simp)
  · split at h
    · rename_i hw
      simp only [Js.ok.injEq] at h
      subst h
      simp [hw]
    · rename_i hw
      simp only [Js.ok.injEq] at h
      subst h
      simp [hw]
    · rename_i ws hw
      simp only [hw]
      exact wordEntries_text value ws keyed h
    · exact absurd h (by simp)


/-- The array `lines` is the lines of the pages, page after page. -/
theorem documentLines_eq_ok (value : String → Option Fraction) (pages : List JVal)
    (lines : List String) :
    documentLines value pages = Js.ok lines ↔
      ∃ perPage, List.Forall₂ (fun page l => pageLines value page = Js.ok l) pages perPage ∧
        lines = perPage.flatten := by
  induction pages generalizing lines with
  | nil =>
    simp only [documentLines, Js.ok.injEq]
    constructor
    · intro h
      exact ⟨[], List.Forall₂.nil, by simp [← h]⟩
    · rintro ⟨perPage, hp, rfl⟩
      cases hp
      rfl
  | cons page pages ih =>
    simp only [documentLines, Js.bind_eq_ok, Js.ok.injEq]
    constructor
    · rintro ⟨l, hl, ls, hls, rfl⟩
      obtain ⟨perPage, hp, rfl⟩ := (ih ls).mp hls
      exact ⟨l :: perPage, List.Forall₂.cons hl hp, by simp⟩
    · rintro ⟨perPage, hp, rfl⟩
      cases hp with
      | cons hl hp' =>
        rename_i l perPage'
        exact ⟨l, hl, perPage'.flatten, (ih _).mpr ⟨perPage', hp', rfl⟩, by simp⟩

/-- The result of the function on a response whose `pages` is an array. -/
theorem extract_of_pages (value : String → Option Fraction) (response : JVal)
    (pages : List JVal) (hp : getProp (some response) "pages" = some (JVal.arr pages)) :
    extractTextLinesFromOCR value response =
      (documentLines value pages).bind fun lines => Js.ok ("\n".intercalate lines) := by
  unfold extractTextLinesFromOCR
  simp only [hp]
  cases pages with
  | nil => rfl
  | cons page pages =>
    have hl : lengthTruthy (some (JVal.arr (page :: pages))) = true := rfl
    simp only [hl, if_true]


/-! ## Documents without words, and documents of several pages -/

/-- C16: for every document without pages (a missing, `null` or empty page list)
and for every document whose pages all have no words (a missing, `null` or empty
word list), the function returns the empty string and does not throw. -/
theorem empty_document (value : String → Option Fraction) (response : JVal) :
    ((getProp (some response) "pages" = none ∨
        getProp (some response) "pages" = some JVal.null ∨
        getProp (some response) "pages" = some (JVal.arr [])) →
      extractTextLinesFromOCR value response = Js.ok "") ∧
    (∀ pages, getProp (some response) "pages" = some (JVal.arr pages) →
      (∀ page ∈ pages, ∃ fields, page = JVal.obj fields ∧
        (fields.lookup "words" = none ∨ fields.lookup "words" = some JVal.null ∨
          fields.lookup "words" = some (JVal.arr []))) →
      extractTextLinesFromOCR value response = Js.ok "") := by
  refine ⟨?_, ?_⟩
  · rintro (h | h | h) <;> simp [extractTextLinesFromOCR, h, lengthTruthy]
  · intro pages hp hw
    rw [extract_of_pages value response pages hp]
    have hlines : documentLines value pages = Js.ok [] := by
      rw [documentLines_eq_ok]
      refine ⟨pages.map (fun _ => []), ?_, ?_⟩
      · rw [List.forall₂_map_right_iff, List.forall₂_same]
        intro page hpage
        obtain ⟨fields, rfl, h | h | h⟩ := hw page hpage
        · simp [pageLines, getProp, h]
        · simp [pageLines, getProp, h]
        · simp only [pageLines, getProp, h]
          rfl
      · clear hp hw
        induction pages with
        | nil => rfl
        | cons _ _ ih => simp
    rw [hlines]
    rfl

theorem empty_document_witness :
    extractTextLinesFromOCR exampleValue (JVal.obj []) = Js.ok "" ∧
      extractTextLinesFromOCR exampleValue exampleNoWords = Js.ok "" :=
  ⟨(empty_document exampleValue (JVal.obj [])).1 (Or.inl rfl),
    (empty_document exampleValue exampleNoWords).2
      [JVal.obj [], JVal.obj [("words", JVal.arr [])]] rfl (by
        intro page hpage
        simp only [List.mem_cons, List.mem_singleton, List.not_mem_nil, or_false] at hpage
        rcases hpage with h | h
        · exact ⟨[], h, Or.inl rfl⟩
        · exact ⟨[("words", JVal.arr [])], h, Or.inr (Or.inr rfl)⟩)⟩

/-- C18: for every document of several pages, the list of output lines is the
lines of the first page, then the lines of the second page, and so on: rows are
built page by page, so a line never mixes words of two pages, and every line of a
page comes before every line of the next page. The function returns these lines
joined by single line feeds. -/
theorem lines_page_after_page (value : String → Option Fraction) (response : JVal)
    (pages : List JVal) (hp : getProp (some response) "pages" = some (JVal.arr pages)) :
    (∀ lines, documentLines value pages = Js.ok lines ↔
      ∃ perPage, List.Forall₂ (fun page l => pageLines value page = Js.ok l) pages perPage ∧
        lines = perPage.flatten) ∧
    (∀ text, extractTextLinesFromOCR value response = Js.ok text ↔
      ∃ lines, documentLines value pages = Js.ok lines ∧ text = "\n".intercalate lines) := by
  refine ⟨documentLines_eq_ok value pages, ?_⟩
  intro text
  rw [extract_of_pages value response pages hp, Js.bind_eq_ok]
  constructor
  · rintro ⟨lines, hl, ht⟩
    exact ⟨lines, hl, (Js.ok.inj ht).symm⟩
  · rintro ⟨lines, hl, rfl⟩
    exact ⟨lines, hl, rfl⟩

theorem lines_page_after_page_witness :
    (∃ lines, documentLines exampleValue (responsePages exampleTwoPages) = Js.ok lines ∧
        "first\nsecond" = "\n".intercalate lines) ∧
      pageLines exampleValue (JVal.obj [("words", JVal.arr [exampleWord "first" "0.5" "0.1"])]) =
        Js.ok ["first"] ∧
      pageLines exampleValue (JVal.obj [("words", JVal.arr [exampleWord "second" "0.1" "0.1"])]) =
        Js.ok ["second"] :=
  ⟨((lines_page_after_page exampleValue exampleTwoPages (responsePages exampleTwoPages) rfl).2
      "first\nsecond").mp (by decide), by decide, by decide⟩


/-! ## The words of the lines -/

/-- The rows behind the lines of a document: every word is in one row. -/
theorem documentLines_rows (value : String → Option Fraction) (pages : List JVal)
    (lines : List String) (h : documentLines value pages = Js.ok lines) :
    ∃ rows : List (List Entry), linesOfRows rows = Js.ok lines ∧
      (rows.flatten.map Entry.text).Perm
        ((pages.flatMap pageWords).map fun w => getProp (some w) "text") ∧
      ∀ row ∈ rows, row ≠ [] := by
  induction pages generalizing lines with
  | nil =>
    simp only [documentLines, Js.ok.injEq] at h
    subst h
    exact ⟨[], rfl, by simp, by simp⟩
  | cons page pages ih =>
    simp only [documentLines, Js.bind_eq_ok, Js.ok.injEq] at h
    obtain ⟨l, hl, ls, hls, rfl⟩ := h
    obtain ⟨rows, hrows, hperm, hne⟩ := ih ls hls
    rw [pageLines_eq, Js.bind_eq_ok] at hl
    obtain ⟨keyed, hkeyed, hpl⟩ := hl
    refine ⟨pageRows keyed ++ rows, linesOfRows_append _ _ _ _ hpl hrows, ?_, ?_⟩
    · rw [List.flatten_append, List.map_append, List.flatMap_cons, List.map_append]
      refine List.Perm.append ?_ hperm
      rw [← pageKeyed_text value page keyed hkeyed]
      have := (pageRows_flatten_perm keyed).map Entry.text
      simpa using this
    · intro row hrow
      rcases List.mem_append.mp hrow with h | h
      · exact pageRows_ne_nil keyed row h
      · exact hne row h

/-- C19: for every document, the function neither drops nor duplicates words: the
lines are the joined texts of rows, the texts of the rows read in output order
are a permutation of the texts of the words of all pages, and no row is empty. -/
theorem words_kept_once (value : String → Option Fraction) (response : JVal) (text : String)
    (h : extractTextLinesFromOCR value response = Js.ok text) :
    ∃ (rows : List (List Entry)) (lines : List String),
      text = "\n".intercalate lines ∧ linesOfRows rows = Js.ok lines ∧
      (rows.flatten.map Entry.text).Perm
        (((responsePages response).flatMap pageWords).map fun w => getProp (some w) "text") ∧
      ∀ row ∈ rows, row ≠ [] := by
  unfold extractTextLinesFromOCR at h
  simp only at h
  split at h
  · split at h
    · rename_i ps hps
      rw [Js.bind_eq_ok] at h
      obtain ⟨lines, hlines, ht⟩ := h
      obtain ⟨rows, hrows, hperm, hne⟩ := documentLines_rows value ps lines hlines
      refine ⟨rows, lines, (Js.ok.inj ht).symm, hrows, ?_, hne⟩
      simpa [responsePages, hps] using hperm
    · exact absurd h (by simp)
  · rename_i hfalsy
    refine ⟨[], [], (Js.ok.inj h).symm, rfl, ?_, by simp⟩
    have hnil : responsePages response = [] := by
      unfold responsePages
      split
      · rename_i ps hps
        cases ps with
        | nil => rfl
        | cons p ps => simp [hps, lengthTruthy] at hfalsy
      · rfl
    simp [hnil]

theorem words_kept_once_witness :
    ∃ (rows : List (List Entry)) (lines : List String),
      "A B\nC" = "\n".intercalate lines ∧ linesOfRows rows = Js.ok lines ∧
      (rows.flatten.map Entry.text).Perm
        (((responsePages exampleDocument).flatMap pageWords).map
          fun w => getProp (some w) "text") ∧
      ∀ row ∈ rows, row ≠ [] :=
  words_kept_once exampleValue exampleDocument "A B\nC" (by decide)


/-- The array `lineWords` is in ascending order of `x`. -/
theorem sortRow_sorted (row : List Entry) :
    (sortRow row).Sorted (fun a b => a.x.toRat ≤ b.x.toRat) := by
  haveI : IsTotal Entry (fun a b => a.x.le b.x) :=
    ⟨fun a b => by
      rw [Fraction.le_iff_toRat, Fraction.le_iff_toRat]
      exact le_total _ _⟩
  haveI : IsTrans Entry (fun a b => a.x.le b.x) :=
    ⟨fun a b c => by
      rw [Fraction.le_iff_toRat, Fraction.le_iff_toRat, Fraction.le_iff_toRat]
      exact le_trans⟩
  have h := List.sorted_insertionSort (fun a b : Entry => a.x.le b.x) row
  exact List.Pairwise.imp (fun {a b} hab => (Fraction.le_iff_toRat a.x b.x).mp hab) h

/-- C20: for every page, each row of the output is the stable sort by `x` of the
words of one bucket taken in input order: it is in ascending order of `x`, and two
words of the row of which the first has the smaller or an equal `x` (equal, say,
because both defaulted to 0) keep their input order. The lines of the page are
the joined texts of these rows, a function of the input sequence. -/
theorem rows_sorted_stably (value : String → Option Fraction) (page : JVal)
    (keyed : List (String × Entry)) (h : pageKeyed value page = Js.ok keyed) :
    pageLines value page = linesOfRows (pageRows keyed) ∧
    ∀ row ∈ pageRows keyed, ∃ yKey ∈ keyed.map Prod.fst,
      row = sortRow ((keyed.filter (fun ke => ke.1 = yKey)).map Prod.snd) ∧
      row.Perm ((keyed.filter (fun ke => ke.1 = yKey)).map Prod.snd) ∧
      row.Sorted (fun a b => a.x.toRat ≤ b.x.toRat) ∧
      ∀ a b, List.Sublist [a, b] ((keyed.filter (fun ke => ke.1 = yKey)).map Prod.snd) →
        a.x.toRat ≤ b.x.toRat → List.Sublist [a, b] row := by
  refine ⟨?_, ?_⟩
  · rw [pageLines_eq, h]
    rfl
  · intro row hrow
    obtain ⟨k, hk, rfl⟩ := (mem_pageRows keyed row).mp hrow
    refine ⟨k, hk, rfl, List.perm_insertionSort _ _, sortRow_sorted _, ?_⟩
    intro a b hab hx
    exact List.pair_sublist_insertionSort ((Fraction.le_iff_toRat a.x b.x).mpr hx) hab

theorem rows_sorted_stably_witness :
    pageLines exampleValue exampleTies = Js.ok ["first second third", "other"] ∧
    ∀ row ∈ pageRows exampleTiesKeyed, ∃ yKey ∈ exampleTiesKeyed.map Prod.fst,
      row = sortRow ((exampleTiesKeyed.filter (fun ke => ke.1 = yKey)).map Prod.snd) ∧
      row.Perm ((exampleTiesKeyed.filter (fun ke => ke.1 = yKey)).map Prod.snd) ∧
      row.Sorted (fun a b => a.x.toRat ≤ b.x.toRat) ∧
      ∀ a b,
        List.Sublist [a, b] ((exampleTiesKeyed.filter (fun ke => ke.1 = yKey)).map Prod.snd) →
        a.x.toRat ≤ b.x.toRat → List.Sublist [a, b] row :=
  ⟨by decide, (rows_sorted_stably exampleValue exampleTies exampleTiesKeyed rfl).2⟩


/-! ## Lemmas on buckets -/

/-- What is known when lines 117 to 127 run without an exception for a word. -/
theorem wordEntry_eq_ok (value : String → Option Fraction) (w : JVal) (ke : String × Entry)
    (h : wordEntry value w = Js.ok ke) :
    w ≠ JVal.null ∧ ∃ y x, wordY value w = Js.ok y ∧ ¬ 10 ^ 21 * y.den ≤ y.num.natAbs ∧
      wordX value w = Js.ok x ∧ ke = (toFixed2 y, ⟨getProp (some w) "text", x⟩) := by
  unfold wordEntry at h
  split at h
  · exact absurd h (by simp)
  · rename_i hnull
    simp only [Js.bind_eq_ok] at h
    obtain ⟨y, hy, h⟩ := h
    split at h
    · exact absurd h (by simp)
    · rename_i hsmall
      simp only [Js.bind_eq_ok] at h
      obtain ⟨x, hx, h⟩ := h
      exact ⟨fun hw => hnull hw, y, x, hy, hsmall, hx, (Js.ok.inj h).symm⟩

/-- The loop over the words succeeds exactly when it does for each word. -/
theorem wordEntries_eq_ok (value : String → Option Fraction) (words : List JVal)
    (keyed : List (String × Entry)) :
    wordEntries value words = Js.ok keyed ↔
      List.Forall₂ (fun w ke => wordEntry value w = Js.ok ke) words keyed := by
  induction words generalizing keyed with
  | nil =>
    simp only [wordEntries, Js.ok.injEq]
    constructor
    · rintro rfl
      exact List.Forall₂.nil
    · intro h
      cases h
      rfl
  | cons w words ih =>
    simp only [wordEntries, Js.bind_eq_ok, Js.ok.injEq]
    constructor
    · rintro ⟨e, he, es, hes, rfl⟩
      exact List.Forall₂.cons he ((ih es).mp hes)
    · intro h
      cases h with
      | cons he hes => exact ⟨_, he, _, (ih _).mpr hes, rfl⟩

/-- A number that is not negative has a numerator that is not negative. -/
theorem Fraction.num_nonneg (y : Fraction) (h : 0 ≤ y.toRat) : 0 ≤ y.num := by
  have hd : (0 : ℚ) < y.den := by exact_mod_cast y.den_pos
  unfold Fraction.toRat at h
  have := (div_nonneg_iff.mp h)
  rcases this with ⟨hn, -⟩ | ⟨-, hd'⟩
  · exact_mod_cast hn
  · exact absurd hd' (not_le.mpr hd)

/-- The magnitude of a number that is not negative is its value. -/
theorem Fraction.natAbs_div (y : Fraction) (h : 0 ≤ y.toRat) :
    ((y.num.natAbs : ℕ) : ℚ) / (y.den : ℚ) = y.toRat := by
  have hn := Fraction.num_nonneg y h
  unfold Fraction.toRat
  congr 1
  have h1 : ((y.num.natAbs : ℕ) : ℤ) = y.num := Int.natAbs_of_nonneg hn
  have h2 : (((y.num.natAbs : ℕ) : ℤ) : ℚ) = (y.num : ℚ) := by rw [h1]
  rw [← h2]
  exact (Int.cast_natCast _).symm

/-- The bucket of a number that is not negative is its value times one hundred,
rounded to the nearest integer, halves upwards. -/
theorem bucketOf_eq_floor (y : Fraction) (h : 0 ≤ y.toRat) :
    (bucketOf y : ℤ) = ⌊100 * y.toRat + 1 / 2⌋ := by
  unfold bucketOf
  rw [hundredths_eq_floor _ _ y.den_pos, Fraction.natAbs_div y h]

/-- The bucket of a number between 0 and 1 is at most one hundred. -/
theorem bucketOf_le (y : Fraction) (h0 : 0 ≤ y.toRat) (h1 : y.toRat ≤ 1) : bucketOf y ≤ 100 := by
  have h := bucketOf_eq_floor y h0
  have hf : ⌊100 * y.toRat + 1 / 2⌋ ≤ 100 := by
    have : ⌊100 * y.toRat + 1 / 2⌋ < 101 := by
      rw [Int.floor_lt]
      push_cast
      linarith
    omega
  omega

/-- The key of a number that is not negative is the text of its bucket. -/
theorem toFixed2_of_nonneg (y : Fraction) (h : 0 ≤ y.toRat) : toFixed2 y = fixed2 (bucketOf y) := by
  have hn := Fraction.num_nonneg y h
  unfold toFixed2 bucketOf
  have : ¬ y.num < 0 := not_lt.mpr hn
  simp [this]

/-- The rounding of the specification is the bucket divided by one hundred. -/
theorem roundTo2Decimals_eq (y : Fraction) (h : 0 ≤ y.toRat) :
    roundTo2Decimals y.toRat = (bucketOf y : ℚ) / 100 := by
  unfold roundTo2Decimals
  rw [← bucketOf_eq_floor y h]
  simp

/-- Two numbers between 0 and 1 have the same key exactly when they round to the
same value at 2 decimal places. -/
theorem toFixed2_eq_iff (y1 y2 : Fraction) (h1 : 0 ≤ y1.toRat ∧ y1.toRat ≤ 1)
    (h2 : 0 ≤ y2.toRat ∧ y2.toRat ≤ 1) :
    toFixed2 y1 = toFixed2 y2 ↔ roundTo2Decimals y1.toRat = roundTo2Decimals y2.toRat := by
  rw [toFixed2_of_nonneg y1 h1.1, toFixed2_of_nonneg y2 h2.1, roundTo2Decimals_eq y1 h1.1,
    roundTo2Decimals_eq y2 h2.1]
  constructor
  · intro h
    rw [fixed2_inj _ _ (bucketOf_le y1 h1.1 h1.2) (bucketOf_le y2 h2.1 h2.2) h]
  · intro h
    have h' : (bucketOf y1 : ℚ) = bucketOf y2 := by
      have := congrArg (fun q : ℚ => q * 100) h
      simpa using this
    have : bucketOf y1 = bucketOf y2 := by exact_mod_cast h'
    rw [this]


/-- The keys of `sortedY` are the buckets of the words. -/
theorem mem_sortedY (keyed : List (String × Entry)) (k : String) :
    k ∈ sortKeys ((groupWords keyed).map Prod.fst) ↔ k ∈ keyed.map Prod.fst := by
  unfold sortKeys
  rw [List.mem_insertionSort]
  exact (groupWords_spec keyed).2.1 k

/-- The output row at the row index of a bucket is the stable sort by `x` of the
entries of this bucket. -/
theorem pageRows_rowIndex (keyed : List (String × Entry)) (k : String)
    (hk : k ∈ keyed.map Prod.fst) :
    (pageRows keyed)[rowIndex keyed k]? =
      some (sortRow ((keyed.filter (fun ke => ke.1 = k)).map Prod.snd)) := by
  unfold pageRows rowIndex
  rw [List.getElem?_map, List.getElem?_indexOf ((mem_sortedY keyed k).mpr hk)]
  simp [(groupWords_spec keyed).2.2 k]

/-- Two buckets of a page have the same row index only when they are equal. -/
theorem rowIndex_inj (keyed : List (String × Entry)) (k1 k2 : String)
    (h1 : k1 ∈ keyed.map Prod.fst) (h2 : k2 ∈ keyed.map Prod.fst) :
    rowIndex keyed k1 = rowIndex keyed k2 ↔ k1 = k2 :=
  List.indexOf_inj ((mem_sortedY keyed k1).mpr h1) ((mem_sortedY keyed k2).mpr h2)

/-- The bucket of a word of a page in terms of its `y`. -/
theorem key_of_zip (value : String → Option Fraction) (words : List JVal)
    (keyed : List (String × Entry)) (hk : wordEntries value words = Js.ok keyed)
    (w : JVal) (ke : String × Entry) (hz : (w, ke) ∈ words.zip keyed)
    (y : Fraction) (hy : wordY value w = Js.ok y) :
    ke ∈ keyed ∧ ke.1 = toFixed2 y := by
  have hf := (wordEntries_eq_ok value words keyed).mp hk
  obtain ⟨-, y', x, hy', -, -, rfl⟩ := wordEntry_eq_ok value w ke (List.forall₂_zip hf hz)
  rw [hy] at hy'
  cases hy'
  exact ⟨(List.of_mem_zip hz).2, rfl⟩

/-! ## Rows and rounding -/

/-- C14: for every two words of a page with `y` between 0 and 1, the words are put
in the same output row exactly when their `y` round to the same value at 2 decimal
places; the output row of a word is the row of its bucket, which holds the words
of this bucket. -/
theorem same_row_iff_same_rounding (value : String → Option Fraction) (words : List JVal)
    (keyed : List (String × Entry)) (hk : wordEntries value words = Js.ok keyed)
    (w1 w2 : JVal) (ke1 ke2 : String × Entry)
    (hz1 : (w1, ke1) ∈ words.zip keyed) (hz2 : (w2, ke2) ∈ words.zip keyed)
    (y1 y2 : Fraction) (hy1 : wordY value w1 = Js.ok y1) (hy2 : wordY value w2 = Js.ok y2)
    (hr1 : 0 ≤ y1.toRat ∧ y1.toRat ≤ 1) (hr2 : 0 ≤ y2.toRat ∧ y2.toRat ≤ 1) :
    (∃ row, (pageRows keyed)[rowIndex keyed ke1.1]? = some row ∧ ke1.2 ∈ row) ∧
    (∃ row, (pageRows keyed)[rowIndex keyed ke2.1]? = some row ∧ ke2.2 ∈ row) ∧
    (rowIndex keyed ke1.1 = rowIndex keyed ke2.1 ↔
      roundTo2Decimals y1.toRat = roundTo2Decimals y2.toRat) := by
  obtain ⟨hm1, hk1⟩ := key_of_zip value words keyed hk w1 ke1 hz1 y1 hy1
  obtain ⟨hm2, hk2⟩ := key_of_zip value words keyed hk w2 ke2 hz2 y2 hy2
  have hin : ∀ ke ∈ keyed, ∃ row, (pageRows keyed)[rowIndex keyed ke.1]? = some row ∧
      ke.2 ∈ row := by
    intro ke hke
    refine ⟨_, pageRows_rowIndex keyed ke.1 (List.mem_map_of_mem Prod.fst hke), ?_⟩
    unfold sortRow
    rw [List.mem_insertionSort]
    exact List.mem_map_of_mem Prod.snd (List.mem_filter.mpr ⟨hke, by simp⟩)
  refine ⟨hin ke1 hm1, hin ke2 hm2, ?_⟩
  rw [rowIndex_inj keyed ke1.1 ke2.1 (List.mem_map_of_mem Prod.fst hm1)
    (List.mem_map_of_mem Prod.fst hm2), hk1, hk2]
  exact toFixed2_eq_iff y1 y2 hr1 hr2


theorem same_row_iff_same_rounding_witness :
    ((∃ row, (pageRows exampleSameRowKeyed)[rowIndex exampleSameRowKeyed "0.10"]? = some row ∧
        (⟨some (JVal.str "left"), ⟨3602879701896397, 36028797018963968, by decide⟩⟩ : Entry) ∈
          row) ∧
      (∃ row, (pageRows exampleSameRowKeyed)[rowIndex exampleSameRowKeyed "0.10"]? = some row ∧
        (⟨some (JVal.str "right"), ⟨1, 2, by decide⟩⟩ : Entry) ∈ row) ∧
      (rowIndex exampleSameRowKeyed "0.10" = rowIndex exampleSameRowKeyed "0.10" ↔
        roundTo2Decimals example0101.toRat = roundTo2Decimals example0104.toRat)) ∧
    extractTextLinesFromOCR exampleValue (exampleOnePage exampleSameRow) = Js.ok "left right" ∧
    extractTextLinesFromOCR exampleValue (exampleOnePage exampleTwoRows) = Js.ok "upper\nlower" :=
  ⟨same_row_iff_same_rounding exampleValue exampleSameRow exampleSameRowKeyed rfl
    (exampleWord "left" "0.1" "0.101") (exampleWord "right" "0.5" "0.104") _ _
    (List.mem_cons_self _ _) (List.mem_cons_of_mem _ (List.mem_cons_self _ _))
    example0101 example0104 rfl rfl
    (by norm_num [Fraction.toRat, example0101]) (by norm_num [Fraction.toRat, example0104]),
    by decide, by decide⟩

/-- Numbers less than 0.005 apart round to the same hundredth or to neighbouring
hundredths. -/
theorem roundTo2Decimals_near (a b : ℚ) (h : |a - b| < 5 / 1000) :
    |roundTo2Decimals a - roundTo2Decimals b| ≤ 1 / 100 := by
  unfold roundTo2Decimals
  have ha1 := Int.floor_le (100 * a + 1 / 2)
  have ha2 := Int.lt_floor_add_one (100 * a + 1 / 2)
  have hb1 := Int.floor_le (100 * b + 1 / 2)
  have hb2 := Int.lt_floor_add_one (100 * b + 1 / 2)
  obtain ⟨h1, h2⟩ := abs_lt.mp h
  have hd1 : ⌊100 * a + 1 / 2⌋ - ⌊100 * b + 1 / 2⌋ ≤ 1 := by
    have : ((⌊100 * a + 1 / 2⌋ - ⌊100 * b + 1 / 2⌋ : ℤ) : ℚ) < 2 := by
      push_cast
      linarith
    have : ⌊100 * a + 1 / 2⌋ - ⌊100 * b + 1 / 2⌋ < 2 := by exact_mod_cast this
    omega
  have hd2 : ⌊100 * b + 1 / 2⌋ - ⌊100 * a + 1 / 2⌋ ≤ 1 := by
    have : ((⌊100 * b + 1 / 2⌋ - ⌊100 * a + 1 / 2⌋ : ℤ) : ℚ) < 2 := by
      push_cast
      linarith
    have : ⌊100 * b + 1 / 2⌋ - ⌊100 * a + 1 / 2⌋ < 2 := by exact_mod_cast this
    omega
  have hq1 : ((⌊100 * a + 1 / 2⌋ : ℤ) : ℚ) - ((⌊100 * b + 1 / 2⌋ : ℤ) : ℚ) ≤ 1 := by
    exact_mod_cast hd1
  have hq2 : ((⌊100 * b + 1 / 2⌋ : ℤ) : ℚ) - ((⌊100 * a + 1 / 2⌋ : ℤ) : ℚ) ≤ 1 := by
    exact_mod_cast hd2
  rw [abs_le]
  constructor <;> linarith

/-- Numbers that round to the same hundredth are less than 0.01 apart. -/
theorem near_of_roundTo2Decimals_eq (a b : ℚ) (h : roundTo2Decimals a = roundTo2Decimals b) :
    |a - b| < 1 / 100 := by
  unfold roundTo2Decimals at h
  have hf : ((⌊100 * a + 1 / 2⌋ : ℤ) : ℚ) = ((⌊100 * b + 1 / 2⌋ : ℤ) : ℚ) := by
    have := congrArg (fun q : ℚ => q * 100) h
    simpa using this
  have ha1 := Int.floor_le (100 * a + 1 / 2)
  have ha2 := Int.lt_floor_add_one (100 * a + 1 / 2)
  have hb1 := Int.floor_le (100 * b + 1 / 2)
  have hb2 := Int.lt_floor_add_one (100 * b + 1 / 2)
  rw [abs_lt]
  constructor <;> linarith

/-- C15, as amended: for every two words of a page with `y` between 0 and 1 that
differ by less than 0.005, the two buckets are equal or 0.01 apart; the words are
in the same row exactly when their `y` round to the same value at 2 decimal
places, and two words of the same row differ in `y` by less than 0.01. -/
theorem near_words_same_or_neighbouring_rows (value : String → Option Fraction)
    (words : List JVal) (keyed : List (String × Entry))
    (hk : wordEntries value words = Js.ok keyed)
    (w1 w2 : JVal) (ke1 ke2 : String × Entry)
    (hz1 : (w1, ke1) ∈ words.zip keyed) (hz2 : (w2, ke2) ∈ words.zip keyed)
    (y1 y2 : Fraction) (hy1 : wordY value w1 = Js.ok y1) (hy2 : wordY value w2 = Js.ok y2)
    (hr1 : 0 ≤ y1.toRat ∧ y1.toRat ≤ 1) (hr2 : 0 ≤ y2.toRat ∧ y2.toRat ≤ 1) :
    (|y1.toRat - y2.toRat| < 5 / 1000 →
      |roundTo2Decimals y1.toRat - roundTo2Decimals y2.toRat| ≤ 1 / 100) ∧
    (rowIndex keyed ke1.1 = rowIndex keyed ke2.1 ↔
      roundTo2Decimals y1.toRat = roundTo2Decimals y2.toRat) ∧
    (rowIndex keyed ke1.1 = rowIndex keyed ke2.1 → |y1.toRat - y2.toRat| < 1 / 100) := by
  obtain ⟨hm1, hk1⟩ := key_of_zip value words keyed hk w1 ke1 hz1 y1 hy1
  obtain ⟨hm2, hk2⟩ := key_of_zip value words keyed hk w2 ke2 hz2 y2 hy2
  have hiff : rowIndex keyed ke1.1 = rowIndex keyed ke2.1 ↔
      roundTo2Decimals y1.toRat = roundTo2Decimals y2.toRat := by
    rw [rowIndex_inj keyed ke1.1 ke2.1 (List.mem_map_of_mem Prod.fst hm1)
      (List.mem_map_of_mem Prod.fst hm2), hk1, hk2]
    exact toFixed2_eq_iff y1 y2 hr1 hr2
  exact ⟨roundTo2Decimals_near _ _, hiff,
    fun h => near_of_roundTo2Decimals_eq _ _ (hiff.mp h)⟩

theorem near_words_same_or_neighbouring_rows_witness :
    (|example0104.toRat - example0106.toRat| < 5 / 1000 →
      |roundTo2Decimals example0104.toRat - roundTo2Decimals example0106.toRat| ≤ 1 / 100) ∧
    (rowIndex exampleNearWordsKeyed "0.10" = rowIndex exampleNearWordsKeyed "0.11" ↔
      roundTo2Decimals example0104.toRat = roundTo2Decimals example0106.toRat) ∧
    (rowIndex exampleNearWordsKeyed "0.10" = rowIndex exampleNearWordsKeyed "0.11" →
      |example0104.toRat - example0106.toRat| < 1 / 100) :=
  near_words_same_or_neighbouring_rows exampleValue exampleNearWords exampleNearWordsKeyed rfl
    (exampleWord "q" "0.1" "0.104") (exampleWord "s" "0.5" "0.106") _ _
    (List.mem_cons_self _ _) (List.mem_cons_of_mem _ (List.mem_cons_self _ _))
    example0104 example0106 rfl rfl
    (by norm_num [Fraction.toRat, example0104]) (by norm_num [Fraction.toRat, example0106])

/-- C15, as stated, fails: the doubles 0.104 and 0.106 differ by less than 0.005,
yet the first prints as `0.10` and the second as `0.11`, so the two words are put
in two rows. -/
theorem near_words_in_two_rows :
    |example0104.toRat - example0106.toRat| < 5 / 1000 ∧
    wordY exampleValue (exampleWord "q" "0.1" "0.104") = Js.ok example0104 ∧
    wordY exampleValue (exampleWord "s" "0.5" "0.106") = Js.ok example0106 ∧
    toFixed2 example0104 = "0.10" ∧ toFixed2 example0106 = "0.11" ∧
    extractTextLinesFromOCR exampleValue (exampleOnePage exampleNearWords) = Js.ok "q\ns" := by
  refine ⟨?_, rfl, rfl, by decide, by decide, by decide⟩
  norm_num [Fraction.toRat, example0104, example0106, abs_lt]


/-! ## Lemmas on the lines -/

/-- The texts of a row whose texts can all be converted. -/
theorem rowTexts_ok (row : List Entry) (h : ∀ e ∈ row, itemText e.text ≠ none) :
    rowTexts row = Js.ok (row.map textOf) := by
  induction row with
  | nil => rfl
  | cons e row ih =>
    have he := h e (List.mem_cons_self _ _)
    have hrest := ih (fun e' he' => h e' (List.mem_cons_of_mem _ he'))
    unfold rowTexts
    cases ht : itemText e.text with
    | none => exact absurd ht he
    | some t => simp [hrest, Js.bind, textOf, ht]

/-- The lines of rows whose texts can all be converted. -/
theorem linesOfRows_ok (rows : List (List Entry))
    (h : ∀ row ∈ rows, ∀ e ∈ row, itemText e.text ≠ none) :
    linesOfRows rows = Js.ok (rows.map fun row => " ".intercalate (row.map textOf)) := by
  induction rows with
  | nil => rfl
  | cons row rows ih =>
    have hrow := rowTexts_ok row (h row (List.mem_cons_self _ _))
    have hrest := ih (fun r hr => h r (List.mem_cons_of_mem _ hr))
    simp [linesOfRows, hrow, hrest, Js.bind]

/-- The entries of the rows of a page are the entries of the page. -/
theorem mem_of_mem_pageRows (keyed : List (String × Entry)) (row : List Entry) (e : Entry)
    (hrow : row ∈ pageRows keyed) (he : e ∈ row) : e ∈ keyed.map Prod.snd := by
  have hmem : e ∈ (pageRows keyed).flatten := List.mem_flatten.mpr ⟨row, hrow, he⟩
  exact (pageRows_flatten_perm keyed).mem_iff.mp hmem

/-- The loop over the words succeeds when it does for each word. -/
theorem wordEntries_ok_of_forall (value : String → Option Fraction) (words : List JVal)
    (h : ∀ w ∈ words, ∃ ke, wordEntry value w = Js.ok ke) :
    ∃ keyed, wordEntries value words = Js.ok keyed := by
  induction words with
  | nil => exact ⟨[], rfl⟩
  | cons w words ih =>
    obtain ⟨ke, hke⟩ := h w (List.mem_cons_self _ _)
    obtain ⟨keyed, hkeyed⟩ := ih (fun w' hw' => h w' (List.mem_cons_of_mem _ hw'))
    exact ⟨ke :: keyed, by simp [wordEntries, hke, hkeyed, Js.bind]⟩

/-- Lines 117 to 127 succeed for a word that is not `null` and whose `y` and `x`
are numbers, the `y` of magnitude below `10 ^ 21`. -/
theorem wordEntry_ok (value : String → Option Fraction) (w : JVal) (y x : Fraction)
    (hw : w ≠ JVal.null) (hy : wordY value w = Js.ok y) (hsmall : y.num.natAbs < 10 ^ 21 * y.den)
    (hx : wordX value w = Js.ok x) :
    wordEntry value w = Js.ok (toFixed2 y, ⟨getProp (some w) "text", x⟩) := by
  unfold wordEntry
  split
  · exact absurd rfl hw
  · have hs : ¬ 10 ^ 21 * y.den ≤ y.num.natAbs := not_le.mpr hsmall
    simp only [hy, hx, Js.bind, hs, if_false]

/-- A number between 0 and 1 has a magnitude below `10 ^ 21`. -/
theorem small_of_le_one (y : Fraction) (h0 : 0 ≤ y.toRat) (h1 : y.toRat ≤ 1) :
    y.num.natAbs < 10 ^ 21 * y.den := by
  have hd : (0 : ℚ) < y.den := by exact_mod_cast y.den_pos
  have h := Fraction.natAbs_div y h0
  rw [← h, div_le_one hd] at h1
  have h1' : y.num.natAbs ≤ y.den := by exact_mod_cast h1
  have hpos := y.den_pos
  nlinarith


/-- The array `sortedY` is in ascending order of the values of its keys. -/
theorem sortKeys_sorted (keys : List String) :
    (sortKeys keys).Pairwise (fun a b => (parseFloat a).le (parseFloat b)) := by
  haveI : IsTotal String (fun a b => (parseFloat a).le (parseFloat b)) :=
    ⟨fun a b => by
      rw [Fraction.le_iff_toRat, Fraction.le_iff_toRat]
      exact le_total _ _⟩
  haveI : IsTrans String (fun a b => (parseFloat a).le (parseFloat b)) :=
    ⟨fun a b c => by
      rw [Fraction.le_iff_toRat, Fraction.le_iff_toRat, Fraction.le_iff_toRat]
      exact le_trans⟩
  exact List.sorted_insertionSort (fun a b : String => (parseFloat a).le (parseFloat b)) keys

/-- The buckets of words with `y` between 0 and 1 are keys of at most one hundred
hundredths. -/
theorem keyed_buckets (value : String → Option Fraction) (words : List JVal)
    (keyed : List (String × Entry))
    (hk : List.Forall₂ (fun w ke => wordEntry value w = Js.ok ke) words keyed)
    (hy : ∀ w ∈ words, ∃ y, wordY value w = Js.ok y ∧ 0 ≤ y.toRat ∧ y.toRat ≤ 1) :
    ∀ ke ∈ keyed, ∃ n, n ≤ 100 ∧ ke.1 = fixed2 n := by
  induction hk with
  | nil => simp
  | @cons w ke words keyed hwke _ ih =>
    intro ke' hke'
    rcases List.mem_cons.mp hke' with h | h
    · subst h
      obtain ⟨y, hyw, h0, h1⟩ := hy w (List.mem_cons_self _ _)
      obtain ⟨-, y', x, hy', -, -, rfl⟩ := wordEntry_eq_ok value w ke' hwke
      rw [hyw] at hy'
      cases hy'
      exact ⟨bucketOf y, bucketOf_le y h0 h1, toFixed2_of_nonneg y h0⟩
    · exact ih (fun w' hw' => hy w' (List.mem_cons_of_mem _ hw')) ke' h

/-- The keys of `sortedY`, for words with `y` between 0 and 1, are the texts of a
strictly ascending list of buckets. -/
theorem sortedY_buckets (keyed : List (String × Entry))
    (hb : ∀ ke ∈ keyed, ∃ n, n ≤ 100 ∧ ke.1 = fixed2 n) :
    ∃ buckets : List Nat, buckets.Sorted (· < ·) ∧
      sortKeys ((groupWords keyed).map Prod.fst) = buckets.map fixed2 ∧
      ∀ n ∈ buckets, n ≤ 100 := by
  have hkeys : ∀ k ∈ sortKeys ((groupWords keyed).map Prod.fst), ∃ n, n ≤ 100 ∧ k = fixed2 n := by
    intro k hk
    obtain ⟨ke, hke, rfl⟩ := List.mem_map.mp ((mem_sortedY keyed k).mp hk)
    exact hb ke hke
  have hnd : (sortKeys ((groupWords keyed).map Prod.fst)).Nodup :=
    (List.perm_insertionSort _ _).nodup_iff.mpr (groupWords_spec keyed).1
  refine ⟨(sortKeys ((groupWords keyed).map Prod.fst)).map
    (fun k => (parseFloat k).num.toNat), ?_, ?_, ?_⟩
  · unfold List.Sorted
    rw [List.pairwise_map]
    refine List.Pairwise.imp_of_mem ?_ ((sortKeys_sorted _).and hnd)
    intro a b ha hb' hab
    obtain ⟨n, hn, rfl⟩ := hkeys a ha
    obtain ⟨m, hm, rfl⟩ := hkeys b hb'
    obtain ⟨hle, hne⟩ := hab
    have hnm : n ≠ m := fun h => hne (by rw [h])
    unfold Fraction.le at hle
    rw [(parseFloat_fixed2 n hn).1, (parseFloat_fixed2 n hn).2, (parseFloat_fixed2 m hm).1,
      (parseFloat_fixed2 m hm).2] at hle
    simp only [(parseFloat_fixed2 n hn).1, (parseFloat_fixed2 m hm).1, Int.toNat_ofNat]
    have hle' : (n : ℤ) ≤ m := by
      have h100 : ((100 : ℕ) : ℤ) = 100 := rfl
      rw [h100] at hle
      omega
    omega
  · rw [List.map_map]
    conv_lhs => rw [← List.map_id (sortKeys ((groupWords keyed).map Prod.fst))]
    apply List.map_congr_left
    intro k hk
    obtain ⟨n, hn, rfl⟩ := hkeys k hk
    simp [(parseFloat_fixed2 n hn).1]
  · intro n hn
    obtain ⟨k, hk, rfl⟩ := List.mem_map.mp hn
    obtain ⟨m, hm, rfl⟩ := hkeys k hk
    simp [(parseFloat_fixed2 m hm).1, hm]


/-- A relation between two lists element by element can be weakened at the
elements of the first list. -/
theorem forall₂_imp_of_mem {α β : Type} {R S : α → β → Prop} (l : List α) (m : List β)
    (h : List.Forall₂ R l m) (himp : ∀ a ∈ l, ∀ b, R a b → S a b) : List.Forall₂ S l m := by
  induction h with
  | nil => exact List.Forall₂.nil
  | @cons a b l m hab _ ih =>
    exact List.Forall₂.cons (himp a (List.mem_cons_self _ _) b hab)
      (ih fun a' ha' => himp a' (List.mem_cons_of_mem _ ha'))

/-! ## C13: the reading order of a page -/

/-- C13: for a document of one page whose words are objects with a text and with
`y` between 0 and 1, `extractTextLinesFromOCR` returns a text. The bucket of each
word is its `y` rounded to two decimals, the rows are those of a strictly
ascending list of the buckets that occur, the row of a bucket is the stable sort
by `x` of the words of the bucket, hence ascending in `x`, and the text is the
rows joined by single newlines, each row being its texts joined by single
spaces. -/
theorem single_page_reading_order (value : String → Option Fraction) (response page : JVal)
    (words : List JVal)
    (hp : getProp (some response) "pages" = some (JVal.arr [page]))
    (hw : getProp (some page) "words" = some (JVal.arr words))
    (hword : ∀ w ∈ words, w ≠ JVal.null ∧
      (∃ y, wordY value w = Js.ok y ∧ 0 ≤ y.toRat ∧ y.toRat ≤ 1) ∧
      (∃ x, wordX value w = Js.ok x) ∧
      ∃ t, getProp (some w) "text" = some (JVal.str t)) :
    ∃ (keyed : List (String × Entry)) (buckets : List Nat),
      List.Forall₂ (fun w ke => ∃ y x, wordY value w = Js.ok y ∧ wordX value w = Js.ok x ∧
        ke = (fixed2 (bucketOf y), ⟨getProp (some w) "text", x⟩) ∧
        (bucketOf y : ℚ) / 100 = roundTo2Decimals y.toRat) words keyed ∧
      buckets.Sorted (· < ·) ∧
      (∀ n, n ∈ buckets → ∃ ke ∈ keyed, ke.1 = fixed2 n) ∧
      (∀ ke ∈ keyed, ∃ n ∈ buckets, ke.1 = fixed2 n) ∧
      pageRows keyed = buckets.map (fun n =>
        sortRow ((keyed.filter (fun ke => ke.1 = fixed2 n)).map Prod.snd)) ∧
      (∀ row ∈ pageRows keyed, row.Sorted (fun a b => a.x.toRat ≤ b.x.toRat)) ∧
      extractTextLinesFromOCR value response =
        Js.ok ("\n".intercalate
          ((pageRows keyed).map fun row => " ".intercalate (row.map textOf))) := by
  have hentry : ∀ w ∈ words, ∃ ke, wordEntry value w = Js.ok ke := by
    intro w hmem
    obtain ⟨hnull, ⟨y, hy, h0, h1⟩, ⟨x, hx⟩, -⟩ := hword w hmem
    exact ⟨_, wordEntry_ok value w y x hnull hy (small_of_le_one y h0 h1) hx⟩
  obtain ⟨keyed, hkeyed⟩ := wordEntries_ok_of_forall value words hentry
  have hF := (wordEntries_eq_ok value words keyed).mp hkeyed
  have hb := keyed_buckets value words keyed hF (fun w hmem => (hword w hmem).2.1)
  obtain ⟨buckets, hsorted, hkeys, -⟩ := sortedY_buckets keyed hb
  have hpage : page ≠ JVal.null := by
    intro h
    rw [h] at hw
    simp [getProp] at hw
  have htext : ∀ row ∈ pageRows keyed, ∀ e ∈ row, itemText e.text ≠ none := by
    intro row hrow e he
    have hmem := mem_of_mem_pageRows keyed row e hrow he
    have hin : e.text ∈ keyed.map (fun ke => ke.2.text) := by
      obtain ⟨ke, hke, rfl⟩ := List.mem_map.mp hmem
      exact List.mem_map.mpr ⟨ke, hke, rfl⟩
    rw [wordEntries_text value words keyed hkeyed] at hin
    obtain ⟨w, hwmem, hwt⟩ := List.mem_map.mp hin
    obtain ⟨t, ht⟩ := (hword w hwmem).2.2.2
    rw [← hwt, ht]
    simp [itemText, JVal.toStr]
  refine ⟨keyed, buckets, ?_, hsorted, ?_, ?_, ?_, ?_, ?_⟩
  · refine forall₂_imp_of_mem words keyed hF ?_
    intro w hwmem ke hwke
    obtain ⟨-, y, x, hy, -, hx, hke⟩ := wordEntry_eq_ok value w ke hwke
    obtain ⟨-, ⟨y', hy', h0, -⟩, -, -⟩ := hword w hwmem
    rw [hy] at hy'
    cases hy'
    refine ⟨y, x, hy, hx, ?_, (roundTo2Decimals_eq y h0).symm⟩
    rw [hke, toFixed2_of_nonneg y h0]
  · intro n hn
    have hmem : fixed2 n ∈ sortKeys ((groupWords keyed).map Prod.fst) := by
      rw [hkeys]
      exact List.mem_map_of_mem fixed2 hn
    obtain ⟨ke, hke, hfst⟩ := List.mem_map.mp ((mem_sortedY keyed _).mp hmem)
    exact ⟨ke, hke, hfst⟩
  · intro ke hke
    have hmem : ke.1 ∈ sortKeys ((groupWords keyed).map Prod.fst) :=
      (mem_sortedY keyed _).mpr (List.mem_map_of_mem Prod.fst hke)
    rw [hkeys] at hmem
    obtain ⟨n, hn, hfst⟩ := List.mem_map.mp hmem
    exact ⟨n, hn, hfst.symm⟩
  · unfold pageRows
    rw [hkeys, List.map_map]
    apply List.map_congr_left
    intro n _
    simp only [Function.comp]
    rw [(groupWords_spec keyed).2.2 (fixed2 n)]
  · intro row hrow
    obtain ⟨k, -, rfl⟩ := (mem_pageRows keyed row).mp hrow
    exact sortRow_sorted _
  · rw [extract_of_pages value response [page] hp]
    have hk : pageKeyed value page = Js.ok keyed := by
      cases page with
      | null => exact absurd rfl hpage
      | obj fields =>
        simp only [pageKeyed]
        rw [hw]
        exact hkeyed
      | _ => simp [getProp] at hw
    simp only [documentLines, pageLines_eq, hk, Js.bind, linesOfRows_ok _ htext,
      List.append_nil]

/-- C13 on the document of the specification: its page has words B at (0.5, 0.10),
A at (0.1, 0.10) and C at (0.2, 0.50), and the text returned is the line of A and
B followed by the line of C. -/
theorem single_page_reading_order_witness :
    (∃ (keyed : List (String × Entry)) (buckets : List Nat),
      List.Forall₂ (fun w ke => ∃ y x, wordY exampleValue w = Js.ok y ∧
        wordX exampleValue w = Js.ok x ∧
        ke = (fixed2 (bucketOf y), ⟨getProp (some w) "text", x⟩) ∧
        (bucketOf y : ℚ) / 100 = roundTo2Decimals y.toRat) exampleReadingWords keyed ∧
      buckets.Sorted (· < ·) ∧
      (∀ n, n ∈ buckets → ∃ ke ∈ keyed, ke.1 = fixed2 n) ∧
      (∀ ke ∈ keyed, ∃ n ∈ buckets, ke.1 = fixed2 n) ∧
      pageRows keyed = buckets.map (fun n =>
        sortRow ((keyed.filter (fun ke => ke.1 = fixed2 n)).map Prod.snd)) ∧
      (∀ row ∈ pageRows keyed, row.Sorted (fun a b => a.x.toRat ≤ b.x.toRat)) ∧
      extractTextLinesFromOCR exampleValue exampleDocument =
        Js.ok ("\n".intercalate
          ((pageRows keyed).map fun row => " ".intercalate (row.map textOf)))) ∧
    extractTextLinesFromOCR exampleValue exampleDocument = Js.ok "A B\nC" :=
  ⟨single_page_reading_order exampleValue exampleDocument
    (JVal.obj [("words", JVal.arr exampleReadingWords)]) exampleReadingWords rfl rfl
    (by
      intro w hmem
      simp only [exampleReadingWords, List.mem_cons, List.mem_singleton, List.not_mem_nil,
        or_false] at hmem
      rcases hmem with rfl | rfl | rfl
      · exact ⟨by simp [exampleWord], ⟨⟨3602879701896397, 36028797018963968, by decide⟩, rfl,
          by norm_num [Fraction.toRat], by norm_num [Fraction.toRat]⟩, ⟨_, rfl⟩, ⟨"B", rfl⟩⟩
      · exact ⟨by simp [exampleWord], ⟨⟨3602879701896397, 36028797018963968, by decide⟩, rfl,
          by norm_num [Fraction.toRat], by norm_num [Fraction.toRat]⟩, ⟨_, rfl⟩, ⟨"A", rfl⟩⟩
      · exact ⟨by simp [exampleWord], ⟨⟨1, 2, by decide⟩, rfl,
          by norm_num [Fraction.toRat], by norm_num [Fraction.toRat]⟩, ⟨_, rfl⟩, ⟨"C", rfl⟩⟩),
    by decide⟩


/-! ## Lemmas on well-shaped documents -/

/-- A coordinate that is missing, falsy or a finite number is read without
failure, and as 0 when it is missing or falsy. -/
theorem coordinate_of_ok (value : String → Option Fraction) (limit : Bool) (other : Js Fraction)
    (v : Option JVal) (h : coordinateOk value limit v = true) :
    ∃ q, coordinate value other v = Js.ok q ∧
      (limit = true → q.num.natAbs < 10 ^ 21 * q.den) ∧
      (truthyU v = false → q = Fraction.zero) := by
  have hzero : Fraction.zero.num.natAbs < 10 ^ 21 * Fraction.zero.den := by decide
  cases v with
  | none => exact ⟨Fraction.zero, rfl, fun _ => hzero, fun _ => rfl⟩
  | some w =>
    by_cases ht : w.truthy = true
    · cases w with
      | num r =>
        cases hv : value r with
        | none => simp [coordinateOk, ht, hv] at h
        | some q =>
          refine ⟨q, by simp [coordinate, ht, hv], ?_, ?_⟩
          · intro hl
            simpa [coordinateOk, ht, hv, hl] using h
          · intro hf
            simp [truthyU, ht] at hf
      | null => simp [coordinateOk, ht] at h
      | bool b => simp [coordinateOk, ht] at h
      | str t => simp [coordinateOk, ht] at h
      | arr xs => simp [coordinateOk, ht] at h
      | obj kvs => simp [coordinateOk, ht] at h
    · refine ⟨Fraction.zero, by simp [coordinate, ht], fun _ => hzero, fun _ => rfl⟩

/-- The first bucket, of a `y` equal to 0. -/
theorem toFixed2_zero : toFixed2 Fraction.zero = "0.00" := by decide

/-- A well-shaped word gives an entry: its coordinates are read without failure,
a missing or falsy coordinate as 0. -/
theorem wordEntry_of_ok (value : String → Option Fraction) (w : JVal)
    (h : wordOk value w = true) :
    w ≠ JVal.null ∧ itemText (getProp (some w) "text") ≠ none ∧
    ∃ y x, wordEntry value w = Js.ok (toFixed2 y, ⟨getProp (some w) "text", x⟩) ∧
      wordY value w = Js.ok y ∧ wordX value w = Js.ok x ∧
      (truthyU (getProp (anchor w) "y") = false → y = Fraction.zero) ∧
      (truthyU (getProp (anchor w) "x") = false → x = Fraction.zero) := by
  have hnull : w ≠ JVal.null := by
    intro hw
    rw [hw] at h
    simp [wordOk] at h
  have hall : coordinateOk value true (getProp (anchor w) "y") = true ∧
      coordinateOk value false (getProp (anchor w) "x") = true ∧
      (itemText (getProp (some w) "text")).isSome = true := by
    cases w with
    | null => exact absurd rfl hnull
    | _ => simpa [wordOk, Bool.and_eq_true, and_assoc] using h
  obtain ⟨hy, hx, ht⟩ := hall
  obtain ⟨y, hyv, hylim, hyz⟩ := coordinate_of_ok value true Js.throws _ hy
  obtain ⟨x, hxv, -, hxz⟩ := coordinate_of_ok value false Js.unmodelled _ hx
  refine ⟨hnull, ?_, y, x, wordEntry_ok value w y x hnull hyv (hylim rfl) hxv, hyv, hxv, hyz, hxz⟩
  intro hnone
  rw [hnone] at ht
  simp at ht

/-- The words of a well-shaped page are well shaped, and the page gives its
buckets and entries. -/
theorem pageKeyed_of_ok (value : String → Option Fraction) (page : JVal)
    (h : pageOk value page = true) :
    (∀ w ∈ pageWords page, wordOk value w = true) ∧ ∃ keyed, pageKeyed value page = Js.ok keyed := by
  have hnull : page ≠ JVal.null := by
    intro hp
    rw [hp] at h
    simp [pageOk] at h
  have hshape : pageOk value page =
      (match getProp (some page) "words" with
        | none => true
        | some JVal.null => true
        | some (JVal.arr ws) => ws.all (wordOk value)
        | some _ => false) := by
    cases page with
    | null => exact absurd rfl hnull
    | _ => rfl
  have hk : pageKeyed value page =
      (match getProp (some page) "words" with
        | none => Js.ok []
        | some JVal.null => Js.ok []
        | some (JVal.arr ws) => wordEntries value ws
        | some _ => Js.throws) := by
    cases page with
    | null => exact absurd rfl hnull
    | _ => rfl
  rw [hshape] at h
  rw [hk]
  unfold pageWords
  generalize getProp (some page) "words" = words at h ⊢
  cases words with
  | none => exact ⟨by simp, [], rfl⟩
  | some v =>
    cases v with
    | null => exact ⟨by simp, [], rfl⟩
    | arr ws =>
      have hall : ∀ w ∈ ws, wordOk value w = true := by
        simpa [List.all_eq_true] using h
      refine ⟨hall, ?_⟩
      exact wordEntries_ok_of_forall value ws fun w hw =>
        let ⟨_, _, y, x, he, _⟩ := wordEntry_of_ok value w (hall w hw)
        ⟨_, he⟩
    | bool b => simp at h
    | num r => simp at h
    | str t => simp at h
    | obj kvs => simp at h

/-- A well-shaped page gives its lines. -/
theorem pageLines_of_ok (value : String → Option Fraction) (page : JVal)
    (h : pageOk value page = true) : ∃ lines, pageLines value page = Js.ok lines := by
  obtain ⟨hwords, keyed, hk⟩ := pageKeyed_of_ok value page h
  rw [pageLines_eq, hk]
  refine ⟨_, linesOfRows_ok (pageRows keyed) ?_⟩
  intro row hrow e he
  have hmem := mem_of_mem_pageRows keyed row e hrow he
  have hin : e.text ∈ keyed.map (fun ke => ke.2.text) := by
    obtain ⟨ke, hke, rfl⟩ := List.mem_map.mp hmem
    exact List.mem_map.mpr ⟨ke, hke, rfl⟩
  rw [pageKeyed_text value page keyed hk] at hin
  obtain ⟨w, hwmem, hwt⟩ := List.mem_map.mp hin
  rw [← hwt]
  exact (wordEntry_of_ok value w (hwords w hwmem)).2.1

/-- Well-shaped pages give their lines. -/
theorem documentLines_of_ok (value : String → Option Fraction) (pages : List JVal)
    (h : ∀ page ∈ pages, pageOk value page = true) :
    ∃ lines, documentLines value pages = Js.ok lines := by
  induction pages with
  | nil => exact ⟨[], rfl⟩
  | cons page rest ih =>
    obtain ⟨l, hl⟩ := pageLines_of_ok value page (h page (List.mem_cons_self _ _))
    obtain ⟨ls, hls⟩ := ih fun p hp => h p (List.mem_cons_of_mem _ hp)
    exact ⟨l ++ ls, by simp only [documentLines, hl, hls, Js.bind]⟩

/-- The pages of a well-shaped response are well shaped. -/
theorem pageOk_of_wellShaped (value : String → Option Fraction) (response : JVal)
    (h : wellShaped value response = true) :
    ∀ page ∈ responsePages response, pageOk value page = true := by
  intro page hpage
  unfold responsePages at hpage
  unfold wellShaped at h
  split at hpage
  · rename_i pages hp
    rw [hp] at h
    simp only [List.all_eq_true] at h
    exact h page hpage
  · simp at hpage


/-! ## C17: missing geometry -/

/-- C17, as amended: on a well-shaped response (pages that are not `null`, words
that are not `null` and whose text converts to a string, each coordinate missing,
falsy or a finite number) `extractTextLinesFromOCR` returns a text. Every word of
such a response is processed: a `y` that is missing or falsy is read as 0 and
puts the word in the bucket `0.00`, an `x` that is missing or falsy is read as 0,
and a word without polygon, without vertices or without a first vertex has both
coordinates 0. -/
theorem well_shaped_response_gives_text (value : String → Option Fraction) (response : JVal)
    (h : wellShaped value response = true) :
    (∃ text, extractTextLinesFromOCR value response = Js.ok text) ∧
    ∀ page ∈ responsePages response, ∀ w ∈ pageWords page,
      ∃ y x, wordEntry value w = Js.ok (toFixed2 y, ⟨getProp (some w) "text", x⟩) ∧
        wordY value w = Js.ok y ∧ wordX value w = Js.ok x ∧
        (truthyU (getProp (anchor w) "y") = false → y = Fraction.zero ∧ toFixed2 y = "0.00") ∧
        (truthyU (getProp (anchor w) "x") = false → x = Fraction.zero) ∧
        ((getProp (some w) "boundingPolygon" = none ∨
            getProp (getProp (some w) "boundingPolygon") "normalizedVertices" = none ∨
            anchor w = none) →
          wordEntry value w = Js.ok ("0.00", ⟨getProp (some w) "text", Fraction.zero⟩)) := by
  have hpages := pageOk_of_wellShaped value response h
  constructor
  · unfold extractTextLinesFromOCR
    dsimp only
    split
    · split
      · rename_i ps hp
        have hps : responsePages response = ps := by simp [responsePages, hp]
        obtain ⟨lines, hl⟩ := documentLines_of_ok value ps (fun page hpage =>
          hpages page (hps ▸ hpage))
        exact ⟨_, by rw [hl]; rfl⟩
      · rename_i hlen pages hne
        exfalso
        unfold wellShaped at h
        split at h
        · rename_i ps hp
          exact hne ps hp
        · rw [hlen] at h
          simp at h
    · exact ⟨"", rfl⟩
  · intro page hpage w hw
    have hword := (pageKeyed_of_ok value page (hpages page hpage)).1 w hw
    obtain ⟨-, -, y, x, he, hy, hx, hyz, hxz⟩ := wordEntry_of_ok value w hword
    refine ⟨y, x, he, hy, hx, ?_, hxz, ?_⟩
    · intro hf
      have hz := hyz hf
      exact ⟨hz, by rw [hz]; exact toFixed2_zero⟩
    · intro hmissing
      have hanchor : anchor w = none := by
        rcases hmissing with hb | hv | ha
        · unfold anchor
          rw [hb]
          rfl
        · unfold anchor
          rw [hv]
          rfl
        · exact ha
      have hy0 : y = Fraction.zero := hyz (by simp [hanchor, getProp, truthyU])
      have hx0 : x = Fraction.zero := hxz (by simp [hanchor, getProp, truthyU])
      rw [he, hy0, hx0, toFixed2_zero]

/-- C17 on a page with a word without geometry, a word with full geometry, a word
whose polygon has no vertices, a word without `y` and a word without `x`: the
words without `y` make the first row, in input order where their `x` ties. -/
theorem well_shaped_response_gives_text_witness :
    wellShaped exampleValue exampleDegraded = true ∧
    (∃ text, extractTextLinesFromOCR exampleValue exampleDegraded = Js.ok text) ∧
    extractTextLinesFromOCR exampleValue exampleDegraded = Js.ok "bare empty noY\nnoX full" :=
  ⟨by decide, (well_shaped_response_gives_text exampleValue exampleDegraded (by decide)).1,
    by decide⟩

/-- C17 as stated fails: a word whose `y` is the text `"0.5"`, an invalid
coordinate, makes `extractTextLinesFromOCR` throw, and so does a `null` in the
list of words. -/
theorem invalid_y_throws :
    extractTextLinesFromOCR exampleValue exampleTextualY = Js.throws ∧
    extractTextLinesFromOCR exampleValue exampleNullWord = Js.throws := by
  decide

end SignOci
